import Mathlib

/-!
# entropyshare: packet codec, crypto envelope, freshness gate, framing and scheduler

A shallow embedding of `common/packet.go` and `common/crypt/crypt.go`, of `receive` in
`cmd/entropy-sink/sink.go`, of `Send` in `target/target.go`, of the scan loop in
`cmd/entropy-source/source/source.go` and of the refill loop in `prng/fortuna.go`.

* Go's `int64` is `I64`: an integer in `[-2^63, 2^63)`, with wrapping `+` and `-`.
* Go's `[n]byte` is `Arr n`, a byte list of length exactly `n`; `[]byte` is `List Byte`,
  and a slice that the code compares with `nil` is an `Option (List Byte)`.
* `io.Reader`, `io.Writer`, the clock and `crypto/rand.Reader` are explicit state.
* The library primitives (NaCl box, RSA-PSS, SHA-256, ASN.1) are the fields of `Prims`.
-/

namespace Entropyshare

/-! ## Machine integers and byte arrays -/

abbrev Byte := UInt8

/-- Go `int64`: a two's complement 64-bit integer, carried as its value. -/
structure I64 where
  val : Int
  lo : -9223372036854775808 ≤ val
  hi : val ≤ 9223372036854775807
deriving DecidableEq

namespace I64

/-- Reduce an integer to the `int64` it denotes (two's complement wrap-around). -/
def wrap (x : Int) : I64 :=
  ⟨(x + 9223372036854775808) % 18446744073709551616 - 9223372036854775808,
    by omega, by omega⟩

/-- Go `a + b` on `int64`: wraps on overflow. -/
def add (a b : I64) : I64 := wrap (a.val + b.val)

/-- Go `a - b` on `int64`: wraps on overflow. -/
def sub (a b : I64) : I64 := wrap (a.val - b.val)

instance : Add I64 := ⟨add⟩
instance : Sub I64 := ⟨sub⟩
instance : LT I64 := ⟨fun a b => a.val < b.val⟩
instance : LE I64 := ⟨fun a b => a.val ≤ b.val⟩
instance (a b : I64) : Decidable (a < b) := inferInstanceAs (Decidable (a.val < b.val))
instance (a b : I64) : Decidable (a ≤ b) := inferInstanceAs (Decidable (a.val ≤ b.val))
instance : Inhabited I64 := ⟨wrap 0⟩

/-- The largest `int64`, `math.MaxInt64`. -/
def max : I64 := ⟨9223372036854775807, by omega, by omega⟩

/-- The smallest `int64`, `math.MinInt64`. -/
def min : I64 := ⟨-9223372036854775808, by omega, by omega⟩

end I64

/-- Go `[n]byte`. -/
def Arr (n : Nat) : Type := { l : List Byte // l.length = n }

instance (n : Nat) : DecidableEq (Arr n) :=
  inferInstanceAs (DecidableEq { l : List Byte // l.length = n })

/-- Go `var a [n]byte; copy(a[:], src)`: the first `n` bytes of `src`, zero padded. -/
def copyArr (n : Nat) (src : List Byte) : Arr n :=
  ⟨src.take n ++ List.replicate (n - src.length) 0, by
    simp only [List.length_append, List.length_take, List.length_replicate]; omega⟩

/-! ## Errors -/

/-- An error value produced outside this repository (`io`, `asn1`, `rsa`, `box`, `net`). -/
structure ExtErr where
  code : Nat
deriving DecidableEq

/-- The error values the data path can return. -/
inductive Err where
  /-- crypt.go: `errors.New("crypt: no public key provided")`. -/
  | noPublicKey
  /-- crypt.go: `errors.New("crypt: no private key provided")`. -/
  | noPrivateKey
  /-- crypt.go: `errors.New("crypt: invalid box size")`. -/
  | invalidBoxSize
  /-- crypt.go: `errors.New("crypt: decryption failure")`. -/
  | decryptionFailure
  /-- packet.go: `ErrUnsignedPacket`. -/
  | ErrUnsignedPacket
  /-- packet.go: `ErrBadChunk`. -/
  | ErrBadChunk
  /-- packet.go: `ErrTimestamp`. -/
  | ErrTimestamp
  /-- packet.go: `ErrCounter`. -/
  | ErrCounter
  /-- packet.go: `errors.New("invalid writer")`. -/
  | invalidWriter
  /-- `io.EOF`. -/
  | EOF
  /-- `io.ErrUnexpectedEOF`. -/
  | ErrUnexpectedEOF
  /-- An error handed back by a library call. -/
  | ext (e : ExtErr)
  /-- A run-time panic: nil pointer dereference. -/
  | nilDeref
deriving DecidableEq

/-! ## Readers, writers -/

/-- An `io.Reader`, by what it still has to give: the bytes it supplies before it stops, and
the error it stops with (`none` for `io.EOF`). -/
structure Reader where
  data : List Byte
  fail : Option ExtErr

/-- The error `io.ReadFull` reports when the reader stops before the buffer is full: the
reader's own error, else `io.EOF` if nothing was read and `io.ErrUnexpectedEOF` after a
partial read. -/
def Reader.stopError (r : Reader) : Err :=
  match r.fail with
  | some e => .ext e
  | none => if r.data.isEmpty then .EOF else .ErrUnexpectedEOF

/-- Contract of `io.ReadFull(r, buf)` with `len(buf) = n`: exactly `n` bytes and no error, or
an error when the reader stops early. -/
def ReadFull (r : Reader) (n : Nat) : Except Err (List Byte) × Reader :=
  if n ≤ r.data.length then
    (.ok (r.data.take n), { r with data := r.data.drop n })
  else
    (.error r.stopError, { r with data := [] })

/-- An `io.Writer`: the bytes it has taken so far, the number of `Write` calls it has
received, and how it answers a `Write(p)` in its current state (bytes taken, error). -/
structure Writer where
  contents : List Byte
  calls : Nat
  respond : List Byte → List Byte → Nat × Option ExtErr

/-- One call `w.Write(p)`: the writer after the call, and the `(n, err)` it returns. -/
def Writer.Write (w : Writer) (p : List Byte) : Writer × Nat × Option ExtErr :=
  let r := w.respond w.contents p
  ({ w with contents := w.contents ++ p.take r.1, calls := w.calls + 1 }, r.1, r.2)

/-! ## common/packet.go: packets -/

def ChunkSize : Nat := 1024

/-- Go `type Packet struct`. -/
structure Packet where
  Timestamp : I64
  Counter : I64
  Chunk : Arr ChunkSize
deriving DecidableEq

/-- Go `type packet struct`, the form that is ASN.1 encoded: the chunk is a slice. -/
structure packet where
  Timestamp : I64
  Counter : I64
  Chunk : List Byte
deriving DecidableEq

/-- Go `NewPacket(counter, r)`; `now` is the value of `time.Now().Unix()`. Returns the
counter, the packet (`none` for `nil`), the error (`none` for `nil`) and the reader after
the call. -/
def NewPacket (now : I64) (counter : I64) (r : Reader) :
    (I64 × Option Packet × Option Err) × Reader :=
  match ReadFull r ChunkSize with
  | (.error err, r') => ((counter, none, some err), r')
  | (.ok chunk, r') =>
    let counter' := counter + I64.wrap 1
    ((counter', some { Timestamp := now, Counter := counter', Chunk := copyArr ChunkSize chunk },
      none), r')

/-! ## Library primitives -/

/-- Go `type signed struct` of crypt.go: the record that is sealed in the box. -/
structure signed where
  Message : List Byte
  Signature : List Byte
deriving DecidableEq

/-- The cryptographic and encoding primitives the code calls, with the key-pair relations
their contracts speak of. `rnd` arguments are the state of `crypto/rand.Reader`. -/
structure Prims where
  /-- Go `rsa.PrivateKey`. -/
  RsaPrivateKey : Type
  /-- Go `rsa.PublicKey`. -/
  RsaPublicKey : Type
  /-- The public key `pk` belongs to the private key `sk`. -/
  RsaKeyPair : RsaPublicKey → RsaPrivateKey → Prop
  /-- The Curve25519 public key (first) belongs to the private key (second). -/
  BoxKeyPair : Arr 32 → Arr 32 → Prop
  /-- Go `sha256.Sum256(message)`. -/
  Sum256 : List Byte → Arr 32
  /-- Go `rsa.SignPSS(rand.Reader, signer, crypto.SHA256, digest, nil)`. -/
  SignPSS : Reader → RsaPrivateKey → List Byte → Except ExtErr (List Byte) × Reader
  /-- Go `rsa.VerifyPSS(signer, crypto.SHA256, digest, sig, nil)`; `none` is a nil error. -/
  VerifyPSS : RsaPublicKey → List Byte → List Byte → Option ExtErr
  /-- Go `box.GenerateKey(rand.Reader)`: `(public, private)`. -/
  GenerateKey : Reader → Except ExtErr (Arr 32 × Arr 32) × Reader
  /-- Go `box.Seal(out, message, nonce, peersPublicKey, privateKey)`: the bytes appended to
  `out`. -/
  Seal : List Byte → Arr 24 → Arr 32 → Arr 32 → List Byte
  /-- Go `box.Open(nil, box, nonce, peersPublicKey, privateKey)`; `none` when `ok` is
  false. -/
  Open : List Byte → Arr 24 → Arr 32 → Arr 32 → Option (List Byte)
  /-- Go `asn1.Marshal` at type `signed`. -/
  MarshalSigned : signed → Except ExtErr (List Byte)
  /-- Go `asn1.Unmarshal` at type `signed` (the rest is dropped by the callers). -/
  UnmarshalSigned : List Byte → Except ExtErr signed
  /-- Go `asn1.Marshal` at type `packet`. -/
  MarshalPacket : packet → Except ExtErr (List Byte)
  /-- Go `asn1.Unmarshal` at type `packet` (the rest is dropped by the callers). -/
  UnmarshalPacket : List Byte → Except ExtErr packet

/-! ## common/crypt/crypt.go -/

def nonceSize : Nat := 24

/-- Go `box.Overhead`. -/
def boxOverhead : Nat := 16

def msgStart : Nat := 32 + nonceSize

def overhead : Nat := 32 + nonceSize + boxOverhead

/-- Go `RandBytes(size)`: `none` is the nil slice returned on failure. -/
def RandBytes (rnd : Reader) (size : Nat) : Option (List Byte) × Reader :=
  match ReadFull rnd size with
  | (.error _, rnd') => (none, rnd')
  | (.ok p, rnd') => (some p, rnd')

/-- Go `newNonce()`: `none` is the nil pointer returned on failure. -/
def newNonce (rnd : Reader) : Option (Arr nonceSize) × Reader :=
  match RandBytes rnd nonceSize with
  | (none, rnd') => (none, rnd')
  | (some p, rnd') => (some (copyArr nonceSize p), rnd')

/-- Go `Encrypt(message, peer, signer)`. `peer = none` is a nil slice, `signer = none` a nil
key. A nil nonce is dereferenced by `nonce[:]`, which panics. -/
def Encrypt (P : Prims) (rnd : Reader) (message : List Byte) (peer : Option (List Byte))
    (signer : Option P.RsaPrivateKey) : Except Err (List Byte) × Reader :=
  match peer with
  | none => (.error .noPublicKey, rnd)
  | some peer =>
    let pub := copyArr 32 peer
    let signature : Except ExtErr (List Byte) × Reader :=
      match signer with
      | none => (.ok [], rnd)
      | some key => P.SignPSS rnd key (P.Sum256 message).val
    match signature with
    | (.error e, rnd1) => (.error (.ext e), rnd1)
    | (.ok sig, rnd1) =>
      match P.MarshalSigned { Message := message, Signature := sig } with
      | .error e => (.error (.ext e), rnd1)
      | .ok sm =>
        match P.GenerateKey rnd1 with
        | (.error e, rnd2) => (.error (.ext e), rnd2)
        | (.ok (epub, epriv), rnd2) =>
          match newNonce rnd2 with
          | (none, rnd3) => (.error .nilDeref, rnd3)
          | (some nonce, rnd3) =>
            (.ok (epub.val ++ nonce.val ++ P.Seal sm nonce pub epriv), rnd3)

/-- Go `Decrypt(ciphertext, priv, signer)`: the message and the `signedMessage` flag, or the
error. `rsa.VerifyPSS` dereferences its key, so a nil `signer` panics there. -/
def Decrypt (P : Prims) (ciphertext : List Byte) (priv : Option (List Byte))
    (signer : Option P.RsaPublicKey) : Except Err (List Byte × Bool) :=
  match priv with
  | none => .error .noPrivateKey
  | some priv =>
    if ciphertext.length < 32 + nonceSize + boxOverhead then .error .invalidBoxSize
    else
      let pub := copyArr 32 (ciphertext.take 32)
      let nonce := copyArr nonceSize (ciphertext.drop 32)
      let decrypt := copyArr 32 priv
      match P.Open (ciphertext.drop msgStart) nonce pub decrypt with
      | none => .error .decryptionFailure
      | some out =>
        match P.UnmarshalSigned out with
        | .error e => .error (.ext e)
        | .ok signed =>
          if signed.Signature.length ≠ 0 then
            match signer with
            | none => .error .nilDeref
            | some key =>
              match P.VerifyPSS key (P.Sum256 signed.Message).val signed.Signature with
              | some e => .error (.ext e)
              | none => .ok (signed.Message, true)
          else .ok (signed.Message, false)

/-! ## common/packet.go: wire form and freshness gate -/

/-- Go `SerialiseWire(p, peer, signer)`. -/
def SerialiseWire (P : Prims) (rnd : Reader) (p : Packet) (peer : Option (List Byte))
    (signer : Option P.RsaPrivateKey) : Except Err (List Byte) × Reader :=
  match P.MarshalPacket { Timestamp := p.Timestamp, Counter := p.Counter, Chunk := p.Chunk.val } with
  | .error e => (.error (.ext e), rnd)
  | .ok out => Encrypt P rnd out peer signer

/-- Go `ParsePacket(in, priv, signer)`. -/
def ParsePacket (P : Prims) (input : List Byte) (priv : Option (List Byte))
    (signer : Option P.RsaPublicKey) : Except Err Packet :=
  match Decrypt P input priv signer with
  | .error err => .error err
  | .ok (msg, wasSigned) =>
    if !wasSigned then .error .ErrUnsignedPacket
    else
      match P.UnmarshalPacket msg with
      | .error e => .error (.ext e)
      | .ok pk =>
        if pk.Chunk.length ≠ ChunkSize then .error .ErrBadChunk
        else .ok { Timestamp := pk.Timestamp, Counter := pk.Counter,
                   Chunk := copyArr ChunkSize pk.Chunk }

/-- Go `ParseAndWritePacket(in, priv, signer, drift, counter, w)`; `now` is the value of
`time.Now().Unix()` and `w = none` a nil writer. Returns the counter, the error (`none` for
nil) and the writer after the call. -/
def ParseAndWritePacket (P : Prims) (now : I64) (input : List Byte)
    (priv : Option (List Byte)) (signer : Option P.RsaPublicKey) (drift counter : I64)
    (w : Option Writer) : (I64 × Option Err) × Option Writer :=
  match ParsePacket P input priv signer with
  | .error err => ((counter, some err), w)
  | .ok p =>
    match w with
    | none => ((counter, some .invalidWriter), none)
    | some w =>
      if now + drift < p.Timestamp then ((counter, some .ErrTimestamp), some w)
      else if now - drift > p.Timestamp then ((counter, some .ErrTimestamp), some w)
      else if p.Counter ≤ counter then ((counter, some .ErrCounter), some w)
      else
        let r := w.Write p.Chunk.val
        ((p.Counter, r.2.2.map Err.ext), some r.1)

/-- The freshness window of `ParseAndWritePacket` as the code computes it, in `int64`
arithmetic: neither timestamp test (`(now + drift) < p.Timestamp`,
`(now - drift) > p.Timestamp`) fires. -/
def withinDrift (now drift ts : I64) : Prop :=
  ¬ (now + drift < ts) ∧ ¬ (now - drift > ts)

instance (now drift ts : I64) : Decidable (withinDrift now drift ts) :=
  inferInstanceAs (Decidable (¬ (now + drift < ts) ∧ ¬ (now - drift > ts)))

/-! ## Contracts of the primitives -/

/-- What the round-trip properties assume of the primitives: box open inverts box seal for
matching key pairs, a generated key is a key pair, a sealed box is `box.Overhead` bytes
longer than its message, PSS verify accepts what PSS sign produced under the matching key,
an RSA signature is never empty, and ASN.1 unmarshal inverts marshal. -/
structure Lawful (P : Prims) : Prop where
  generateKey_pair : ∀ rnd rnd' pub priv,
    P.GenerateKey rnd = (.ok (pub, priv), rnd') → P.BoxKeyPair pub priv
  open_seal : ∀ m nonce pub priv epub epriv,
    P.BoxKeyPair pub priv → P.BoxKeyPair epub epriv →
      P.Open (P.Seal m nonce pub epriv) nonce epub priv = some m
  seal_length : ∀ m nonce pub epriv,
    (P.Seal m nonce pub epriv).length = m.length + boxOverhead
  verify_sign : ∀ rnd rnd' pk sk digest sig,
    P.RsaKeyPair pk sk → P.SignPSS rnd sk digest = (.ok sig, rnd') →
      P.VerifyPSS pk digest sig = none
  sign_nonempty : ∀ rnd rnd' sk digest sig,
    P.SignPSS rnd sk digest = (.ok sig, rnd') → sig.length ≠ 0
  unmarshal_marshal_signed : ∀ s b,
    P.MarshalSigned s = .ok b → P.UnmarshalSigned b = .ok s
  unmarshal_marshal_packet : ∀ p b,
    P.MarshalPacket p = .ok b → P.UnmarshalPacket b = .ok p

/-! ## A small executable instance of the primitives

Stand-ins with the shape of the real primitives, used to run the model on concrete inputs:
an unkeyed 16-byte tag for the box, the key byte in front of the digest for a signature,
fixed-width big-endian integers and a self-delimiting byte string for the encodings. -/

namespace Ref

/-- Big-endian encoding of `n` on `k` bytes. -/
def encNat : Nat → Nat → List Byte
  | 0, _ => []
  | k + 1, n => encNat k (n / 256) ++ [UInt8.ofNat (n % 256)]

/-- Big-endian decoding. -/
def decNat (b : List Byte) : Nat :=
  b.foldl (fun acc x => acc * 256 + x.toNat) 0

/-- An `int64` on eight bytes (offset binary, big-endian). -/
def encI64 (x : I64) : List Byte :=
  encNat 8 (x.val + 9223372036854775808).toNat

def decI64 (b : List Byte) : I64 :=
  I64.wrap ((decNat b : Int) - 9223372036854775808)

/-- A self-delimiting byte string: each byte behind a `1`, then a `0`. -/
def encBytes : List Byte → List Byte
  | [] => [0]
  | b :: rest => 1 :: b :: encBytes rest

/-- Reads one `encBytes` string off the front: the string and what follows it. -/
def decBytes : List Byte → Option (List Byte × List Byte)
  | [] => none
  | t :: rest =>
    if t = 0 then some ([], rest)
    else
      match rest with
      | [] => none
      | b :: rest' =>
        match decBytes rest' with
        | none => none
        | some (s, m) => some (b :: s, m)

/-- The instance. Keys are their own partners; a box is a 16-byte tag before the message. -/
def prims : Prims where
  RsaPrivateKey := Byte
  RsaPublicKey := Byte
  RsaKeyPair pk sk := pk = sk
  BoxKeyPair pub priv := pub = priv
  Sum256 m := copyArr 32 m
  SignPSS rnd key digest := (.ok (key :: digest), rnd)
  VerifyPSS key digest sig := if sig = key :: digest then none else some ⟨1⟩
  GenerateKey rnd :=
    match ReadFull rnd 32 with
    | (.error _, rnd') => (.error ⟨2⟩, rnd')
    | (.ok k, rnd') => (.ok (copyArr 32 k, copyArr 32 k), rnd')
  Seal m _ _ _ := List.replicate 16 0 ++ m
  Open box _ _ _ := if 16 ≤ box.length then some (box.drop 16) else none
  MarshalSigned s := .ok (encBytes s.Signature ++ s.Message)
  UnmarshalSigned b :=
    match decBytes b with
    | none => .error ⟨3⟩
    | some (sig, msg) => .ok { Message := msg, Signature := sig }
  MarshalPacket p := .ok (encI64 p.Timestamp ++ encI64 p.Counter ++ p.Chunk)
  UnmarshalPacket b :=
    if b.length < 16 then .error ⟨4⟩
    else .ok { Timestamp := decI64 (b.take 8), Counter := decI64 ((b.drop 8).take 8),
               Chunk := b.drop 16 }

/-- The state of `crypto/rand.Reader`: 64 bytes on offer. -/
def rand : Reader := { data := List.replicate 64 9, fail := none }

/-- The sink's Curve25519 key (public and private coincide in `prims`). -/
def sinkKey : List Byte := List.replicate 32 5

/-- The source's RSA signing key (public and private coincide in `prims`). -/
def signerKey : Byte := 3

/-- A packet stamped 1700000000 with sender counter 31. -/
def packet31 : Packet :=
  { Timestamp := I64.wrap 1700000000, Counter := I64.wrap 31,
    Chunk := copyArr ChunkSize (List.replicate 1024 171) }

/-- The envelope `SerialiseWire` makes of `p` for the sink, signed (empty on failure) or
unsigned. -/
def envelope (p : Packet) (signer : Option Byte) : List Byte :=
  match (SerialiseWire prims rand p (some sinkKey) signer).1 with
  | .ok out => out
  | .error _ => []

/-- A short message. -/
def message : List Byte := [82, 97, 103, 101, 44, 32, 114, 97, 103, 101]

/-- The ciphertext `Encrypt` makes of `m` for the sink (empty on failure). -/
def ciphertext (m : List Byte) (signer : Option Byte) : List Byte :=
  match (Encrypt prims rand m (some sinkKey) signer).1 with
  | .ok out => out
  | .error _ => []

/-- An empty `bytes.Buffer` as a writer: takes everything. -/
def buffer : Writer := { contents := [], calls := 0, respond := fun _ p => (p.length, none) }

/-- A writer whose `Write` fails without taking a byte. -/
def brokenWriter : Writer := { contents := [], calls := 0, respond := fun _ _ => (0, some ⟨5⟩) }

/-- An empty `bytes.Buffer` as a reader. -/
def emptyReader : Reader := { data := [], fail := none }

/-- A reader with 2048 bytes on offer, the first 1024 of them `1`, the rest `2`. -/
def fullReader : Reader :=
  { data := List.replicate 1024 1 ++ List.replicate 1024 2, fail := none }

end Ref

/-! ## Wire framing: `encoding/binary` -/

/-- Go `uint16(n)` of an `int` `n ≥ 0`: the low 16 bits. -/
def uint16 (n : Nat) : Nat := n % 65536

/-- Go `var header [2]byte; binary.BigEndian.PutUint16(header[:], v)`: `byte(v >> 8)`, then
`byte(v)`. -/
def PutUint16 (v : Nat) : Arr 2 := ⟨[UInt8.ofNat (v / 256), UInt8.ofNat v], rfl⟩

/-- Go `binary.BigEndian.Uint16(b[:])` of a `[2]byte`. -/
def Uint16 (b : Arr 2) : Nat :=
  match b.val with
  | [b0, b1] => b0.toNat * 256 + b1.toNat
  | _ => 0

/-! ## cmd/entropy-sink/sink.go -/

/-- A `net.Conn` as the sink reads it: what the successive `Read` calls find (one segment
per arrival), and the error met after the last one (`none` for `io.EOF`). -/
structure Conn where
  segments : List (List Byte)
  fail : Option ExtErr

/-- One call `conn.Read(buf)` with `len(buf) = n`: at most `n` bytes of the first segment
and no error, or no byte and the error of the connection. -/
def Conn.Read (c : Conn) (n : Nat) : (List Byte × Option Err) × Conn :=
  match c.segments with
  | [] =>
    (([], some (match c.fail with
      | some e => Err.ext e
      | none => Err.EOF)), c)
  | s :: rest =>
    ((s.take n, none), { c with segments := if s.length ≤ n then rest else s.drop n :: rest })

/-- What is left of the connection, as the `io.Reader` handed to `io.ReadFull`. -/
def Conn.toReader (c : Conn) : Reader := { data := c.segments.flatten, fail := c.fail }

/-- The sink's `config.Private`, `state.Signer` and `config.Drift`. -/
structure SinkConfig (P : Prims) where
  Private : Option (List Byte)
  Signer : Option P.RsaPublicKey
  Drift : I64

/-- The sink's `state.Counter` and `state.PRNG`. -/
structure SinkState where
  Counter : I64
  PRNG : Option Writer

/-- Go `receive(conn)`: the state after the call and the error it logged (`none` when the
packet was written). `now` is the clock `ParseAndWritePacket` reads. The header is read with
one `conn.Read` into a zeroed `[2]byte`. -/
def receive (P : Prims) (cfg : SinkConfig P) (now : I64) (conn : Conn) (state : SinkState) :
    SinkState × Option Err :=
  match conn.Read 2 with
  | ((_, some err), _) => (state, some err)
  | ((read, none), conn1) =>
    let b := copyArr 2 read
    let l := Uint16 b
    match ReadFull conn1.toReader l with
    | (.error err, _) => (state, some err)
    | (.ok packet, _) =>
      let r := ParseAndWritePacket P now packet cfg.Private cfg.Signer cfg.Drift
        state.Counter state.PRNG
      ({ Counter := r.1.1, PRNG := r.2 }, r.1.2)

/-- The accept loop of `server`, as far as the state goes: one `receive` per accepted
connection, each with its own clock reading. -/
def serve (P : Prims) (cfg : SinkConfig P) (conns : List (I64 × Conn)) (state : SinkState) :
    SinkState :=
  conns.foldl (fun st c => (receive P cfg c.1 c.2 st).1) state

/-- The call of `ParseAndWritePacket` parses the packet, has a writer to write to, and the
packet passes both freshness checks (timestamp window, counter increase). -/
def passedChecks (P : Prims) (now : I64) (input : List Byte) (priv : Option (List Byte))
    (signer : Option P.RsaPublicKey) (drift counter : I64) (w : Option Writer) : Prop :=
  ∃ (p : Packet) (w0 : Writer), ParsePacket P input priv signer = .ok p ∧ w = some w0 ∧
    withinDrift now drift p.Timestamp ∧ counter < p.Counter

/-! ## target/target.go -/

/-- Go `type Target struct`. -/
structure Target where
  Address : String
  Public : Option (List Byte)
  Counter : I64
  Next : I64

/-- What a `Send` acts on besides its target: the clock `NewPacket` reads, `prng.PRNG`,
`crypto/rand.Reader`, and the outcome of `net.Dial("tcp", addr)` (the connection as a
writer). -/
structure SendEnv where
  clock : I64
  prng : Reader
  rnd : Reader
  dial : String → Except ExtErr Writer

/-- The outcome of `t.Send(signer)`: the target after the call, the returned error, the
readers after the call, and what went to the connection: the argument of the first
`conn.Write` (the header), of the second (the body), and the connection after the call. -/
structure SendResult where
  t : Target
  err : Option Err
  env : SendEnv
  header : Option (Arr 2)
  body : Option (List Byte)
  conn : Option Writer

/-- Go `(t *Target) Send(signer)`. The counter `NewPacket` returns is stored in `t.Counter`
before the error is looked at. -/
def Target.Send (P : Prims) (env : SendEnv) (t : Target) (signer : Option P.RsaPrivateKey) :
    SendResult :=
  let r := NewPacket env.clock t.Counter env.prng
  let t1 : Target := { t with Counter := r.1.1 }
  let env1 : SendEnv := { env with prng := r.2 }
  match r.1.2.2 with
  | some err => { t := t1, err := some err, env := env1, header := none, body := none,
                  conn := none }
  | none =>
    match r.1.2.1 with
    | none => { t := t1, err := some .nilDeref, env := env1, header := none, body := none,
                conn := none }
    | some packet =>
      match SerialiseWire P env.rnd packet t.Public signer with
      | (.error err, rnd') =>
        { t := t1, err := some err, env := { env1 with rnd := rnd' }, header := none,
          body := none, conn := none }
      | (.ok out, rnd') =>
        let env2 : SendEnv := { env1 with rnd := rnd' }
        let header := PutUint16 (uint16 out.length)
        match env.dial t.Address with
        | .error e => { t := t1, err := some (.ext e), env := env2, header := none,
                        body := none, conn := none }
        | .ok conn =>
          let w1 := conn.Write header.val
          match w1.2.2 with
          | some e => { t := t1, err := some (.ext e), env := env2, header := some header,
                        body := none, conn := some w1.1 }
          | none =>
            let w2 := w1.1.Write out
            match w2.2.2 with
            | some e => { t := t1, err := some (.ext e), env := env2, header := some header,
                          body := some out, conn := some w2.1 }
            | none => { t := t1, err := none, env := env2, header := some header,
                        body := some out, conn := some w2.1 }

/-- The packet `NewPacket` hands to `Send` when the PRNG supplies a whole chunk. -/
def sendPacket (env : SendEnv) (t : Target) : Packet :=
  { Timestamp := env.clock, Counter := t.Counter + I64.wrap 1,
    Chunk := copyArr ChunkSize (env.prng.data.take ChunkSize) }

/-! ## cmd/entropy-source/source/source.go -/

/-- The outcome of `targetCheck` for one target: the target after the call, whether `Send`
was called and what it returned (`none`: not called), and the environment after it. -/
structure Checked where
  t : Target
  sent : Option (Option Err)
  env : SendEnv

/-- The boolean `targetCheck` returns: `Send` was called and returned nil. -/
def Checked.updated (c : Checked) : Bool :=
  match c.sent with
  | some none => true
  | _ => false

/-- Go `targetCheck(t, signer, now)`. -/
def targetCheck (P : Prims) (env : SendEnv) (t : Target) (signer : Option P.RsaPrivateKey)
    (now : I64) : Checked :=
  if t.Next < now then
    let r := t.Send P env signer
    { t := r.t, sent := some r.err, env := r.env }
  else { t := t, sent := none, env := env }

/-- Go `int64(delay.Seconds())` with `delay = 6 * time.Hour`. -/
def delaySeconds : I64 := I64.wrap 21600

/-- The `for i, t := range targets` loop of `Start`: per target the outcome of
`targetCheck`, with `Next` advanced when it returned true; the `targetUpdate` flag and the
environment are threaded through. -/
def scanTargets (P : Prims) (signer : Option P.RsaPrivateKey) (now : I64) :
    SendEnv → List Target → Bool → List Checked × Bool × SendEnv
  | env, [], targetUpdate => ([], targetUpdate, env)
  | env, t :: rest, targetUpdate =>
    let c := targetCheck P env t signer now
    let c' : Checked :=
      if c.updated then { c with t := { c.t with Next := now + delaySeconds } } else c
    let r := scanTargets P signer now c.env rest (if c.updated then true else targetUpdate)
    (c' :: r.1, r.2.1, r.2.2)

/-- The file system as `target.Store` meets it: the error `ioutil.WriteFile` comes back
with, if any, and what a failed write leaves of the old content of the file. -/
structure FileSys where
  fail : Option ExtErr
  damage : List Target → List Target

/-- Go `target.Store(fileName, targets)` on a file that holds `old`: the error returned and
the content of the file afterwards (the new targets when the write succeeds). -/
def Store (fs : FileSys) (old targets : List Target) : Option ExtErr × List Target :=
  match fs.fail with
  | none => (none, targets)
  | some e => (some e, fs.damage old)

/-- One pass of the loop of `Start`: the per-target outcomes, the argument of
`target.Store` when it was called, the content of the target file, the flag and the
environment after the pass. -/
structure ScanResult where
  checked : List Checked
  stored : Option (List Target)
  file : List Target
  targetUpdate : Bool
  env : SendEnv

/-- One iteration of the `for` loop of `Start`; `now` is its clock reading and `file` the
content of the target file, which `target.Load` returned. An error of `target.Store` is
logged and otherwise ignored. -/
def scanPass (P : Prims) (signer : Option P.RsaPrivateKey) (now : I64) (env : SendEnv)
    (fs : FileSys) (file : List Target) (targetUpdate : Bool) : ScanResult :=
  let r := scanTargets P signer now env file targetUpdate
  if r.2.1 then
    { checked := r.1, stored := some (r.1.map Checked.t),
      file := (Store fs file (r.1.map Checked.t)).2, targetUpdate := false, env := r.2.2 }
  else
    { checked := r.1, stored := none, file := file, targetUpdate := r.2.1, env := r.2.2 }

/-- The environment the sends to the targets `pre` leave behind: what the target after them
meets in the same pass. -/
def envAfter (P : Prims) (signer : Option P.RsaPrivateKey) (now : I64) (env : SendEnv)
    (pre : List Target) : SendEnv :=
  (scanTargets P signer now env pre false).2.2

/-- The scheduler rule for one target `t` met in `env`, stated on `Send`: a target that is
not due (`t.Next ≥ now`) is left alone and nothing is sent; for a due target `Send` is
called once, the target it leaves is kept, with `Next` moved to `now + 21600` exactly when
it returned nil, and the environment it leaves is passed on. -/
def passEntry (P : Prims) (signer : Option P.RsaPrivateKey) (now : I64) (env : SendEnv)
    (t : Target) : Checked :=
  if t.Next < now then
    { t := { (t.Send P env signer).t with
             Next := if (t.Send P env signer).err = none then now + delaySeconds else t.Next },
      sent := some (t.Send P env signer).err,
      env := (t.Send P env signer).env }
  else { t := t, sent := none, env := env }

/-- How a pass treats one target `t`, given the outcome `c` recorded for it: a send was
attempted exactly when `t.Next < now`; `Next` is `now + 21600` (in `int64`) when the send
was attempted and returned nil, and unchanged otherwise; the address is that of `t`. -/
def scanned (now : I64) (t : Target) (c : Checked) : Prop :=
  (c.sent.isSome = true ↔ t.Next < now) ∧
  c.t.Next = (if c.sent = some none then now + delaySeconds else t.Next) ∧
  c.t.Address = t.Address

/-! ## `Decrypt` with Go's slice bounds checks -/

/-- Go slice expression `s[:hi]`: `none` is the run-time panic "slice bounds out of
range". -/
def sliceTo (s : List Byte) (hi : Nat) : Option (List Byte) :=
  if hi ≤ s.length then some (s.take hi) else none

/-- Go slice expression `s[lo:]`: `none` is the run-time panic "slice bounds out of
range". -/
def sliceFrom (s : List Byte) (lo : Nat) : Option (List Byte) :=
  if lo ≤ s.length then some (s.drop lo) else none

/-- The part of `Decrypt` after the three slices are taken: open the box, decode the record,
verify the signature if there is one. -/
def openAndVerify (P : Prims) (pub : Arr 32) (nonce : Arr nonceSize) (decrypt : Arr 32)
    (box : List Byte) (signer : Option P.RsaPublicKey) : Except Err (List Byte × Bool) :=
  match P.Open box nonce pub decrypt with
  | none => .error .decryptionFailure
  | some out =>
    match P.UnmarshalSigned out with
    | .error e => .error (.ext e)
    | .ok signed =>
      if signed.Signature.length ≠ 0 then
        match signer with
        | none => .error .nilDeref
        | some key =>
          match P.VerifyPSS key (P.Sum256 signed.Message).val signed.Signature with
          | some e => .error (.ext e)
          | none => .ok (signed.Message, true)
      else .ok (signed.Message, false)

/-- Go `Decrypt` with every slice expression checked against the length of the ciphertext:
`ciphertext[:32]`, `ciphertext[32:]` and `ciphertext[msgStart:]`. The outer `none` is a
slice-bounds panic. -/
def DecryptChecked (P : Prims) (ciphertext : List Byte) (priv : Option (List Byte))
    (signer : Option P.RsaPublicKey) : Option (Except Err (List Byte × Bool)) :=
  match priv with
  | none => some (.error .noPrivateKey)
  | some priv =>
    if ciphertext.length < 32 + nonceSize + boxOverhead then some (.error .invalidBoxSize)
    else
      match sliceTo ciphertext 32 with
      | none => none
      | some s1 =>
        match sliceFrom ciphertext 32 with
        | none => none
        | some s2 =>
          match sliceFrom ciphertext msgStart with
          | none => none
          | some s3 =>
            some (openAndVerify P (copyArr 32 s1) (copyArr nonceSize s2) (copyArr 32 priv) s3
              signer)

/-! ## prng/fortuna.go: the refill loop of `logAutoUpdate` -/

/-- The case of the `select` that proceeds in one iteration of the loop: the six-hour timer,
or a receive on `config.shutdownChan` with its `ok` (false once the channel is closed). -/
inductive SelectCase where
  | timer
  | shutdown (ok : Bool)
deriving DecidableEq

/-- How a statement completes: normally, or by a `break` that is looking for the statement
it terminates. -/
inductive Completion where
  | normal
  | brk
deriving DecidableEq

/-- The refill goroutine: the calls of `refillPRNG` made so far, and whether the `for` loop
has been left (the line after it, "autofill shutting down", reached). -/
structure Autofill where
  refills : Nat
  exited : Bool
deriving DecidableEq

/-- The body of the chosen `case`: `refillPRNG()` for the timer, `if !ok { break }` for the
shutdown channel. -/
def caseBody (c : SelectCase) (s : Autofill) : Autofill × Completion :=
  match c with
  | .timer => ({ s with refills := s.refills + 1 }, .normal)
  | .shutdown ok => if !ok then (s, .brk) else (s, .normal)

/-- The `select` statement: a `break` in one of its cases terminates the `select`, the
innermost enclosing statement, which then completes normally. -/
def selectStmt (c : SelectCase) (s : Autofill) : Autofill × Completion :=
  ((caseBody c s).1, .normal)

/-- One iteration of `for { select { ... } }`: the loop is left only by a `break` that
reaches the `for` statement. -/
def forIteration (c : SelectCase) (s : Autofill) : Autofill :=
  match selectStmt c s with
  | (s', .brk) => { s' with exited := true }
  | (s', .normal) => s'

/-- The loop run over a schedule of `select` outcomes, one per iteration; nothing runs
once the loop has been left. -/
def autofillRun (schedule : List SelectCase) (s : Autofill) : Autofill :=
  schedule.foldl (fun st c => if st.exited then st else forIteration c st) s

/-- The goroutine as `logAutoUpdate` starts it. -/
def autofillStart : Autofill := { refills := 0, exited := false }

/-! ## Concrete targets and connections -/

namespace Ref

/-- A target for the sink, last counter 30, due since time 0. -/
def target30 : Target :=
  { Address := "sink.example:4141", Public := some sinkKey, Counter := I64.wrap 30,
    Next := I64.wrap 0 }

/-- A source whose PRNG has 2048 bytes on offer and whose sink is unreachable: `net.Dial`
fails. -/
def unreachable : SendEnv :=
  { clock := I64.wrap 1700000000, prng := fullReader, rnd := rand,
    dial := fun _ => .error ⟨7⟩ }

/-- The same source with the sink reachable: the connection takes every write. -/
def reachable : SendEnv :=
  { clock := I64.wrap 1700000000, prng := fullReader, rnd := rand,
    dial := fun _ => .ok buffer }

/-- A file system on which the target file cannot be written: `ioutil.WriteFile` fails on
opening it and the file keeps its content. -/
def readOnly : FileSys := { fail := some ⟨30⟩, damage := fun old => old }

/-- A file system on which every write succeeds. -/
def writable : FileSys := { fail := none, damage := fun old => old }

/-- The envelope `Send` builds for `target30` from the environment `reachable`. -/
def frameBody : List Byte := envelope (sendPacket reachable target30) (some signerKey)

/-- The header for a body of 1179 bytes. -/
def frameHeader : Arr 2 := PutUint16 (uint16 1179)

/-- The sink `target30` stands for: its key, the signer it trusts, a drift of one second. -/
def sinkConfig : SinkConfig prims :=
  { Private := some sinkKey, Signer := some signerKey, Drift := I64.wrap 1 }

/-- The sink before the frame arrives: counter 0, an empty buffer as the entropy writer. -/
def sinkState : SinkState := { Counter := I64.wrap 0, PRNG := some buffer }

/-- The frame arriving in one piece. -/
def wholeFrame : Conn := { segments := [frameHeader.val ++ frameBody], fail := none }

/-- The same bytes arriving in two pieces, the first of which holds only the first header
byte. -/
def splitFrame : Conn :=
  { segments := [frameHeader.val.take 1, frameHeader.val.drop 1 ++ frameBody], fail := none }

/-- 65536 zero bytes. -/
def padding : List Byte := List.replicate 65536 0

/-- The primitives of `prims` with a signing key whose signatures are very long: 65536
bytes after the key byte and the digest. -/
def widePrims : Prims where
  RsaPrivateKey := Byte
  RsaPublicKey := Byte
  RsaKeyPair pk sk := pk = sk
  BoxKeyPair := prims.BoxKeyPair
  Sum256 := prims.Sum256
  SignPSS rnd key digest := (.ok (key :: digest ++ padding), rnd)
  VerifyPSS key digest sig := if sig = key :: digest ++ padding then none else some ⟨1⟩
  GenerateKey := prims.GenerateKey
  Seal := prims.Seal
  Open := prims.Open
  MarshalSigned := prims.MarshalSigned
  UnmarshalSigned := prims.UnmarshalSigned
  MarshalPacket := prims.MarshalPacket
  UnmarshalPacket := prims.UnmarshalPacket

end Ref

/-! ## Arithmetic and array lemmas -/

theorem I64.ext_val {a b : I64} (h : a.val = b.val) : a = b := by
  cases a; cases b; simp_all

theorem I64.add_val (a b : I64) :
    (a + b).val =
      (a.val + b.val + 9223372036854775808) % 18446744073709551616 - 9223372036854775808 :=
  rfl

theorem I64.sub_val (a b : I64) :
    (a - b).val =
      (a.val - b.val + 9223372036854775808) % 18446744073709551616 - 9223372036854775808 :=
  rfl

theorem I64.wrap_val (x : Int) :
    (I64.wrap x).val =
      (x + 9223372036854775808) % 18446744073709551616 - 9223372036854775808 :=
  rfl

theorem I64.lt_def (a b : I64) : a < b ↔ a.val < b.val := Iff.rfl

theorem I64.le_def (a b : I64) : a ≤ b ↔ a.val ≤ b.val := Iff.rfl

theorem I64.wrap_of_range (x : Int) (h1 : -9223372036854775808 ≤ x)
    (h2 : x ≤ 9223372036854775807) : (I64.wrap x).val = x := by
  rw [I64.wrap_val]; omega

theorem copyArr_val_of_length {n : Nat} {l : List Byte} (h : l.length = n) :
    (copyArr n l).val = l := by
  simp [copyArr, h]

theorem copyArr_val_self {n : Nat} (a : Arr n) : copyArr n a.val = a :=
  Subtype.ext (copyArr_val_of_length a.property)

/-! ## `io.ReadFull` and `NewPacket` -/

theorem ReadFull_ok (r : Reader) (n : Nat) (h : n ≤ r.data.length) :
    ReadFull r n = (.ok (r.data.take n), { r with data := r.data.drop n }) := by
  simp [ReadFull, h]

theorem ReadFull_short (r : Reader) (n : Nat) (h : r.data.length < n) :
    ReadFull r n = (.error r.stopError, { r with data := [] }) := by
  have h' : ¬ n ≤ r.data.length := by omega
  simp only [ReadFull, h', if_false]

theorem NewPacket_short (now c : I64) (r : Reader) (h : r.data.length < ChunkSize) :
    NewPacket now c r = ((c, none, some r.stopError), { r with data := [] }) := by
  simp only [NewPacket, ReadFull_short r ChunkSize h]

theorem NewPacket_full (now c : I64) (r : Reader) (h : ChunkSize ≤ r.data.length) :
    NewPacket now c r =
      ((c + I64.wrap 1,
        some { Timestamp := now, Counter := c + I64.wrap 1,
               Chunk := copyArr ChunkSize (r.data.take ChunkSize) },
        none),
       { r with data := r.data.drop ChunkSize }) := by
  simp only [NewPacket, ReadFull_ok r ChunkSize h]

/-! ## The envelope: `Decrypt` after `Encrypt` -/

theorem copyArr_append_left {n : Nat} (a : Arr n) (rest : List Byte) :
    copyArr n (a.val ++ rest) = a := by
  apply Subtype.ext
  have h := a.property
  simp only [copyArr, List.length_append]
  rw [List.take_left' h]
  have h0 : n - (a.val.length + rest.length) = 0 := by omega
  rw [h0]; simp

theorem envelope_pub (epub : Arr 32) (nonce : Arr nonceSize) (box : List Byte) :
    copyArr 32 ((epub.val ++ nonce.val ++ box).take 32) = epub := by
  rw [List.append_assoc, List.take_left' epub.property]
  exact copyArr_val_self epub

theorem envelope_nonce (epub : Arr 32) (nonce : Arr nonceSize) (box : List Byte) :
    copyArr nonceSize ((epub.val ++ nonce.val ++ box).drop 32) = nonce := by
  rw [List.append_assoc, List.drop_left' epub.property]
  exact copyArr_append_left nonce box

theorem envelope_box (epub : Arr 32) (nonce : Arr nonceSize) (box : List Byte) :
    (epub.val ++ nonce.val ++ box).drop msgStart = box := by
  have h : (epub.val ++ nonce.val).length = msgStart := by
    simp [msgStart, epub.property, nonce.property]
  exact List.drop_left' h

theorem envelope_length (epub : Arr 32) (nonce : Arr nonceSize) (box : List Byte) :
    (epub.val ++ nonce.val ++ box).length = 32 + nonceSize + box.length := by
  simp only [List.length_append, epub.property, nonce.property]

/-- What `Decrypt` returns on an envelope `epub || nonce || box` whose box opens to the
encoding of the record `{message, sig}`. -/
theorem Decrypt_envelope (P : Prims) (priv : List Byte) (verifier : Option P.RsaPublicKey)
    (epub : Arr 32) (nonce : Arr nonceSize) (box sm m sig : List Byte)
    (hlen : boxOverhead ≤ box.length)
    (hopen : P.Open box nonce epub (copyArr 32 priv) = some sm)
    (hun : P.UnmarshalSigned sm = .ok { Message := m, Signature := sig }) :
    Decrypt P (epub.val ++ nonce.val ++ box) (some priv) verifier =
      if sig.length ≠ 0 then
        match verifier with
        | none => .error .nilDeref
        | some key =>
          match P.VerifyPSS key (P.Sum256 m).val sig with
          | some e => .error (.ext e)
          | none => .ok (m, true)
      else .ok (m, false) := by
  have hl : ¬ (epub.val ++ nonce.val ++ box).length < 32 + nonceSize + boxOverhead := by
    rw [envelope_length]; omega
  simp only [Decrypt, hl, if_false, envelope_pub, envelope_nonce, envelope_box, hopen, hun]

/-- The shape of a ciphertext `Encrypt` returns: `epub || nonce || box`, where the box seals
the encoding of `{message, sig}` for the peer under a generated key pair, and `sig` is empty
without a signer and the output of `SignPSS` with one. -/
theorem Encrypt_ok_shape (P : Prims) (rnd : Reader) (m pub : List Byte)
    (signer : Option P.RsaPrivateKey) (ct : List Byte)
    (he : (Encrypt P rnd m (some pub) signer).1 = .ok ct) :
    ∃ (sig sm : List Byte) (epub epriv : Arr 32) (nonce : Arr nonceSize) (r1 r2 : Reader),
      (match signer with
        | none => sig = []
        | some key => ∃ r0, P.SignPSS rnd key (P.Sum256 m).val = (.ok sig, r0)) ∧
      P.MarshalSigned { Message := m, Signature := sig } = .ok sm ∧
      P.GenerateKey r1 = (.ok (epub, epriv), r2) ∧
      ct = epub.val ++ nonce.val ++ P.Seal sm nonce (copyArr 32 pub) epriv := by
  unfold Encrypt at he
  cases signer with
  | none =>
    simp only at he
    split at he
    · simp at he
    · rename_i sm hsm
      split at he
      · simp at he
      · rename_i epub epriv r2 hgen
        split at he
        · simp at he
        · rename_i nonce r3 hn
          simp only [Except.ok.injEq] at he
          exact ⟨[], sm, epub, epriv, nonce, rnd, r2, rfl, hsm, hgen, he.symm⟩
  | some key =>
    simp only at he
    split at he
    · simp at he
    · rename_i sig r1 hsig
      split at he
      · simp at he
      · rename_i sm hsm
        split at he
        · simp at he
        · rename_i epub epriv r2 hgen
          split at he
          · simp at he
          · rename_i nonce r3 hn
            simp only [Except.ok.injEq] at he
            exact ⟨sig, sm, epub, epriv, nonce, r1, r2, ⟨r1, hsig⟩, hsm, hgen, he.symm⟩

/-- Envelope round trip, both forms: `Decrypt` returns the message `Encrypt` was given, and
the flag tells whether `Encrypt` had a signer. -/
theorem Decrypt_Encrypt (P : Prims) (hL : Lawful P) (rnd : Reader) (m pub priv : List Byte)
    (signer : Option P.RsaPrivateKey) (verifier : Option P.RsaPublicKey) (ct : List Byte)
    (hk : P.BoxKeyPair (copyArr 32 pub) (copyArr 32 priv))
    (hs : ∀ sk, signer = some sk → ∃ pk, verifier = some pk ∧ P.RsaKeyPair pk sk)
    (he : (Encrypt P rnd m (some pub) signer).1 = .ok ct) :
    Decrypt P ct (some priv) verifier = .ok (m, signer.isSome) := by
  obtain ⟨sig, sm, epub, epriv, nonce, r1, r2, hsig, hsm, hgen, hct⟩ :=
    Encrypt_ok_shape P rnd m pub signer ct he
  have hpair := hL.generateKey_pair r1 r2 epub epriv hgen
  have hopen := hL.open_seal sm nonce (copyArr 32 pub) (copyArr 32 priv) epub epriv hk hpair
  have hlen : boxOverhead ≤ (P.Seal sm nonce (copyArr 32 pub) epriv).length := by
    rw [hL.seal_length]; omega
  have hun := hL.unmarshal_marshal_signed _ _ hsm
  rw [hct, Decrypt_envelope P priv verifier epub nonce _ sm m sig hlen hopen hun]
  cases signer with
  | none =>
    simp only at hsig
    simp [hsig]
  | some sk =>
    obtain ⟨r0, hsign⟩ := hsig
    obtain ⟨pk, hv, hpk⟩ := hs sk rfl
    have hne := hL.sign_nonempty _ _ _ _ _ hsign
    have hver := hL.verify_sign _ _ pk sk _ _ hpk hsign
    simp [hne, hv, hver]

/-! ## Packets on the wire: `ParsePacket` after `SerialiseWire` -/

theorem SerialiseWire_ok_shape (P : Prims) (rnd : Reader) (p : Packet) (peer : Option (List Byte))
    (signer : Option P.RsaPrivateKey) (env : List Byte)
    (he : (SerialiseWire P rnd p peer signer).1 = .ok env) :
    ∃ out, P.MarshalPacket
        { Timestamp := p.Timestamp, Counter := p.Counter, Chunk := p.Chunk.val } = .ok out ∧
      (Encrypt P rnd out peer signer).1 = .ok env := by
  unfold SerialiseWire at he
  split at he
  · simp at he
  · rename_i out hout
    exact ⟨out, hout, he⟩

/-- Packet round trip: a signed envelope parses back to the packet it was made of. -/
theorem ParsePacket_SerialiseWire (P : Prims) (hL : Lawful P) (rnd : Reader) (p : Packet)
    (pub priv : List Byte) (sk : P.RsaPrivateKey) (pk : P.RsaPublicKey) (env : List Byte)
    (hk : P.BoxKeyPair (copyArr 32 pub) (copyArr 32 priv)) (hs : P.RsaKeyPair pk sk)
    (he : (SerialiseWire P rnd p (some pub) (some sk)).1 = .ok env) :
    ParsePacket P env (some priv) (some pk) = .ok p := by
  obtain ⟨out, hout, henc⟩ := SerialiseWire_ok_shape P rnd p _ _ env he
  have hdec := Decrypt_Encrypt P hL rnd out pub priv (some sk) (some pk) env hk
    (fun sk' h => ⟨pk, rfl, by cases h; exact hs⟩) henc
  have hun := hL.unmarshal_marshal_packet _ _ hout
  have hlen : p.Chunk.val.length = ChunkSize := p.Chunk.property
  simp only [ParsePacket, hdec, Option.isSome_some, Bool.not_true, hun, hlen]
  simp [copyArr_val_self]

/-- An envelope made without a signer is refused by `ParsePacket`, whatever the verifier. -/
theorem ParsePacket_unsigned (P : Prims) (hL : Lawful P) (rnd : Reader) (p : Packet)
    (pub priv : List Byte) (verifier : Option P.RsaPublicKey) (env : List Byte)
    (hk : P.BoxKeyPair (copyArr 32 pub) (copyArr 32 priv))
    (he : (SerialiseWire P rnd p (some pub) none).1 = .ok env) :
    ParsePacket P env (some priv) verifier = .error .ErrUnsignedPacket := by
  obtain ⟨out, hout, henc⟩ := SerialiseWire_ok_shape P rnd p _ _ env he
  have hdec := Decrypt_Encrypt P hL rnd out pub priv none verifier env hk
    (fun sk' h => by cases h) henc
  simp [ParsePacket, hdec]

/-! ## The freshness gate -/

/-- `ParseAndWritePacket` on an envelope that parses to `p`, with a non-nil writer. -/
theorem ParseAndWritePacket_parsed (P : Prims) (now : I64) (input : List Byte)
    (priv : Option (List Byte)) (signer : Option P.RsaPublicKey) (drift counter : I64)
    (w : Writer) (p : Packet) (hp : ParsePacket P input priv signer = .ok p) :
    ParseAndWritePacket P now input priv signer drift counter (some w) =
      if now + drift < p.Timestamp then ((counter, some .ErrTimestamp), some w)
      else if now - drift > p.Timestamp then ((counter, some .ErrTimestamp), some w)
      else if p.Counter ≤ counter then ((counter, some .ErrCounter), some w)
      else ((p.Counter, (w.Write p.Chunk.val).2.2.map Err.ext), some (w.Write p.Chunk.val).1) := by
  simp only [ParseAndWritePacket, hp]

theorem ParseAndWritePacket_parse_error (P : Prims) (now : I64) (input : List Byte)
    (priv : Option (List Byte)) (signer : Option P.RsaPublicKey) (drift counter : I64)
    (w : Option Writer) (err : Err) (hp : ParsePacket P input priv signer = .error err) :
    ParseAndWritePacket P now input priv signer drift counter w = ((counter, some err), w) := by
  simp only [ParseAndWritePacket, hp]

theorem ParseAndWritePacket_nil_writer (P : Prims) (now : I64) (input : List Byte)
    (priv : Option (List Byte)) (signer : Option P.RsaPublicKey) (drift counter : I64)
    (p : Packet) (hp : ParsePacket P input priv signer = .ok p) :
    ParseAndWritePacket P now input priv signer drift counter none =
      ((counter, some .invalidWriter), none) := by
  simp only [ParseAndWritePacket, hp]

/-- Inside the window and with a larger counter the chunk is written and the packet's
counter returned, together with whatever error the write gave. -/
theorem ParseAndWritePacket_fresh (P : Prims) (now : I64) (input : List Byte)
    (priv : Option (List Byte)) (signer : Option P.RsaPublicKey) (drift counter : I64)
    (w : Writer) (p : Packet) (hp : ParsePacket P input priv signer = .ok p)
    (hw : withinDrift now drift p.Timestamp) (hc : counter < p.Counter) :
    ParseAndWritePacket P now input priv signer drift counter (some w) =
      ((p.Counter, (w.Write p.Chunk.val).2.2.map Err.ext), some (w.Write p.Chunk.val).1) := by
  rw [ParseAndWritePacket_parsed P now input priv signer drift counter w p hp]
  have hc' : ¬ p.Counter ≤ counter := by
    rw [I64.le_def]; rw [I64.lt_def] at hc; omega
  simp only [hw.1, hw.2, hc', if_false]

/-- Inside the window, a counter that did not increase is refused and nothing is written. -/
theorem ParseAndWritePacket_stale (P : Prims) (now : I64) (input : List Byte)
    (priv : Option (List Byte)) (signer : Option P.RsaPublicKey) (drift counter : I64)
    (w : Writer) (p : Packet) (hp : ParsePacket P input priv signer = .ok p)
    (hw : withinDrift now drift p.Timestamp) (hc : p.Counter ≤ counter) :
    ParseAndWritePacket P now input priv signer drift counter (some w) =
      ((counter, some .ErrCounter), some w) := by
  rw [ParseAndWritePacket_parsed P now input priv signer drift counter w p hp]
  simp only [hw.1, hw.2, hc, if_false, if_true]

/-- Outside the window the packet is refused with `ErrTimestamp` and nothing is written. -/
theorem ParseAndWritePacket_outside (P : Prims) (now : I64) (input : List Byte)
    (priv : Option (List Byte)) (signer : Option P.RsaPublicKey) (drift counter : I64)
    (w : Writer) (p : Packet) (hp : ParsePacket P input priv signer = .ok p)
    (hw : ¬ withinDrift now drift p.Timestamp) :
    ParseAndWritePacket P now input priv signer drift counter (some w) =
      ((counter, some .ErrTimestamp), some w) := by
  rw [ParseAndWritePacket_parsed P now input priv signer drift counter w p hp]
  unfold withinDrift at hw
  by_cases h1 : now + drift < p.Timestamp
  · simp only [h1, if_true]
  · by_cases h2 : now - drift > p.Timestamp
    · simp only [h1, h2, if_true, if_false]
    · exact absurd ⟨h1, h2⟩ hw

/-- The only way the returned counter differs from the input counter: the packet parsed,
the writer is non-nil, both freshness checks passed and the write was reached; the packet's
counter is then returned with whatever error the write gave. -/
theorem ParseAndWritePacket_counter_cases (P : Prims) (now : I64) (input : List Byte)
    (priv : Option (List Byte)) (signer : Option P.RsaPublicKey) (drift counter : I64)
    (w : Option Writer) :
    (ParseAndWritePacket P now input priv signer drift counter w).1.1 = counter ∨
    ∃ (p : Packet) (w0 : Writer),
      ParsePacket P input priv signer = .ok p ∧ w = some w0 ∧
      withinDrift now drift p.Timestamp ∧ counter < p.Counter ∧
      ParseAndWritePacket P now input priv signer drift counter w =
        ((p.Counter, (w0.Write p.Chunk.val).2.2.map Err.ext),
         some (w0.Write p.Chunk.val).1) := by
  cases hp : ParsePacket P input priv signer with
  | error err =>
    left
    rw [ParseAndWritePacket_parse_error P now input priv signer drift counter w err hp]
  | ok p =>
    cases w with
    | none =>
      left
      rw [ParseAndWritePacket_nil_writer P now input priv signer drift counter p hp]
    | some w0 =>
      by_cases hw : withinDrift now drift p.Timestamp
      · by_cases hc : p.Counter ≤ counter
        · left
          rw [ParseAndWritePacket_stale P now input priv signer drift counter w0 p hp hw hc]
        · right
          have hc' : counter < p.Counter := by
            rw [I64.lt_def]; rw [I64.le_def] at hc; omega
          exact ⟨p, w0, rfl, rfl, hw, hc',
            ParseAndWritePacket_fresh P now input priv signer drift counter w0 p hp hw hc'⟩
      · left
        rw [ParseAndWritePacket_outside P now input priv signer drift counter w0 p hp hw]

/-- The window of the code is the interval `|ts - now| ≤ drift` whenever `now + drift` and
`now - drift` are representable in `int64`. -/
theorem withinDrift_of_abs (now drift ts : I64)
    (hhi : now.val + drift.val ≤ 9223372036854775807)
    (hlo : -9223372036854775808 ≤ now.val - drift.val)
    (h : |ts.val - now.val| ≤ drift.val) : withinDrift now drift ts := by
  have h' := abs_le.mp h
  have hn := now.lo
  have hn' := now.hi
  have hd := drift.lo
  have hd' := drift.hi
  unfold withinDrift
  simp only [I64.lt_def, gt_iff_lt, I64.add_val, I64.sub_val]
  omega

/-! ## The executable instance meets the contracts -/

theorem Ref.encNat_length (k n : Nat) : (Ref.encNat k n).length = k := by
  induction k generalizing n with
  | zero => rfl
  | succ k ih => simp [Ref.encNat, ih]

theorem Ref.decNat_encNat (k n : Nat) : Ref.decNat (Ref.encNat k n) = n % 256 ^ k := by
  induction k generalizing n with
  | zero => simp [Ref.encNat, Ref.decNat, Nat.mod_one]
  | succ k ih =>
    have ih' := ih (n / 256)
    unfold Ref.decNat at ih' ⊢
    have hb : (UInt8.ofNat (n % 256)).toNat = n % 256 := by
      show n % 256 % 256 = n % 256
      omega
    simp only [Ref.encNat, List.foldl_append, List.foldl_cons, List.foldl_nil, ih', hb]
    rw [pow_succ, Nat.mul_comm (256 ^ k) 256, Nat.mod_mul]
    omega

theorem Ref.decI64_encI64 (x : I64) : Ref.decI64 (Ref.encI64 x) = x := by
  apply I64.ext_val
  have h1 := x.lo
  have h2 := x.hi
  unfold Ref.decI64 Ref.encI64
  rw [Ref.decNat_encNat, I64.wrap_val]
  norm_num
  omega

theorem Ref.decBytes_cons (t : Byte) (rest : List Byte) :
    Ref.decBytes (t :: rest) =
      if t = 0 then some ([], rest)
      else
        match rest with
        | [] => none
        | b :: rest' =>
          match Ref.decBytes rest' with
          | none => none
          | some (s, m) => some (b :: s, m) := by
  cases rest <;> simp [Ref.decBytes]

theorem Ref.decBytes_encBytes (s m : List Byte) :
    Ref.decBytes (Ref.encBytes s ++ m) = some (s, m) := by
  induction s with
  | nil =>
    show Ref.decBytes (0 :: m) = some ([], m)
    rw [Ref.decBytes_cons]; simp
  | cons b rest ih =>
    have h10 : ¬ ((1 : Byte) = 0) := by decide
    show Ref.decBytes (1 :: b :: (Ref.encBytes rest ++ m)) = some (b :: rest, m)
    rw [Ref.decBytes_cons]
    simp only [h10, if_false, ih]

theorem Ref.prims_lawful : Lawful Ref.prims where
  generateKey_pair := by
    intro rnd rnd' pub priv h
    simp only [Ref.prims] at h ⊢
    split at h
    · simp at h
    · simp only [Prod.mk.injEq, Except.ok.injEq] at h
      rw [← h.1.1, ← h.1.2]
  open_seal := by
    intro m nonce pub priv epub epriv _ _
    simp [Ref.prims]
  seal_length := by
    intro m nonce pub epriv
    simp [Ref.prims, boxOverhead]
  verify_sign := by
    intro rnd rnd' pk sk digest sig hk h
    simp only [Ref.prims] at hk h ⊢
    simp only [Prod.mk.injEq, Except.ok.injEq] at h
    simp [← h.1, hk]
  sign_nonempty := by
    intro rnd rnd' sk digest sig h
    simp only [Ref.prims, Prod.mk.injEq, Except.ok.injEq] at h
    simp [← h.1]
  unmarshal_marshal_signed := by
    intro s b h
    simp only [Ref.prims, Except.ok.injEq] at h ⊢
    rw [← h, Ref.decBytes_encBytes]
  unmarshal_marshal_packet := by
    intro p b h
    simp only [Ref.prims, Except.ok.injEq] at h ⊢
    have ht : (Ref.encI64 p.Timestamp).length = 8 := Ref.encNat_length _ _
    have hc : (Ref.encI64 p.Counter).length = 8 := Ref.encNat_length _ _
    have hl : ¬ b.length < 16 := by
      rw [← h]; simp only [List.length_append, ht, hc]; omega
    have h1 : b.take 8 = Ref.encI64 p.Timestamp := by
      rw [← h, List.append_assoc, List.take_left' ht]
    have h2 : (b.drop 8).take 8 = Ref.encI64 p.Counter := by
      rw [← h, List.append_assoc, List.drop_left' ht, List.take_left' hc]
    have h3 : b.drop 16 = p.Chunk := by
      rw [← h]
      exact List.drop_left' (by simp only [List.length_append, ht, hc])
    simp only [hl, if_false, h1, h2, h3, Ref.decI64_encI64]

/-! ## Concrete runs on the executable instance -/

theorem Ref.SerialiseWire_isOk (p : Packet) (signer : Option Byte) :
    ∃ out, (SerialiseWire Ref.prims Ref.rand p (some Ref.sinkKey) signer).1 = .ok out := by
  cases signer <;>
    simp [SerialiseWire, Encrypt, Ref.prims, newNonce, RandBytes, ReadFull, Ref.rand, nonceSize]

theorem Ref.SerialiseWire_envelope (p : Packet) (signer : Option Byte) :
    (SerialiseWire Ref.prims Ref.rand p (some Ref.sinkKey) signer).1 =
      .ok (Ref.envelope p signer) := by
  obtain ⟨out, h⟩ := Ref.SerialiseWire_isOk p signer
  simp only [Ref.envelope, h]

theorem Ref.ParsePacket_envelope (p : Packet) :
    ParsePacket Ref.prims (Ref.envelope p (some Ref.signerKey)) (some Ref.sinkKey)
      (some Ref.signerKey) = .ok p :=
  ParsePacket_SerialiseWire Ref.prims Ref.prims_lawful Ref.rand p Ref.sinkKey Ref.sinkKey
    Ref.signerKey Ref.signerKey _ rfl rfl (Ref.SerialiseWire_envelope p _)

/-! ## Claims on `ParseAndWritePacket` -/

/-- C1 (fails on the code). When parsing and both freshness checks pass but the write
fails, `ParseAndWritePacket` returns the write error together with the packet's counter, not
the input counter: here the input counter is 0, the writer's `Write` fails, and the call
returns counter 31 with the error. -/
theorem C1_write_error_returns_packet_counter :
    ParseAndWritePacket Ref.prims (I64.wrap 1700000000)
        (Ref.envelope Ref.packet31 (some Ref.signerKey)) (some Ref.sinkKey)
        (some Ref.signerKey) (I64.wrap 1) (I64.wrap 0) (some Ref.brokenWriter) =
      ((I64.wrap 31, some (.ext ⟨5⟩)), some { Ref.brokenWriter with calls := 1 }) ∧
    I64.wrap 31 ≠ I64.wrap 0 := by
  refine ⟨?_, by decide⟩
  rw [ParseAndWritePacket_fresh Ref.prims _ _ _ _ _ _ Ref.brokenWriter Ref.packet31
    (Ref.ParsePacket_envelope Ref.packet31) (by decide) (by decide)]
  have hc : Ref.packet31.Counter = I64.wrap 31 := rfl
  simp [Writer.Write, Ref.brokenWriter, hc]

/-- Once a call has accepted an envelope and returned `c'`, the same envelope with the same
clock and drift and the counter `c'` is refused with `ErrCounter`, whatever the writer. -/
theorem replay_after_accept (P : Prims) (now : I64) (input : List Byte)
    (priv : Option (List Byte)) (signer : Option P.RsaPublicKey) (drift : I64) (p : Packet)
    (hp : ParsePacket P input priv signer = .ok p) (c0 c' : I64) (w0 : Writer)
    (h : (ParseAndWritePacket P now input priv signer drift c0 (some w0)).1 = (c', none)) :
    (ParseAndWritePacket P now input priv signer drift c'
      (ParseAndWritePacket P now input priv signer drift c0 (some w0)).2).1 =
      (c', some .ErrCounter) := by
  by_cases hw : withinDrift now drift p.Timestamp
  · rw [ParseAndWritePacket_parsed P now input priv signer drift c0 w0 p hp] at h ⊢
    have h1 := hw.1
    have h2 := hw.2
    simp only [h1, h2, if_false] at h ⊢
    by_cases h3 : p.Counter ≤ c0
    · simp [h3] at h
    · simp only [h3, if_false, Prod.mk.injEq] at h ⊢
      have hle : p.Counter ≤ c' := by rw [← h.1]; exact Int.le_refl _
      rw [ParseAndWritePacket_stale P now input priv signer drift c' _ p hp hw hle]
  · rw [ParseAndWritePacket_outside P now input priv signer drift c0 w0 p hp hw] at h
    simp at h

/-- C2 (as stated, fails). With drift `math.MaxInt64` the sum `now + drift` overflows: a
packet stamped exactly `now`, so within drift of the clock, with counter 31 presented to a
receiver whose counter is 31, is refused with `ErrTimestamp`, not with `ErrCounter`. -/
theorem C2_counterexample :
    ParsePacket Ref.prims (Ref.envelope Ref.packet31 (some Ref.signerKey))
        (some Ref.sinkKey) (some Ref.signerKey) = .ok Ref.packet31 ∧
    |Ref.packet31.Timestamp.val - (I64.wrap 1700000000).val| ≤ I64.max.val ∧
    Ref.packet31.Counter ≤ I64.wrap 31 ∧
    (ParseAndWritePacket Ref.prims (I64.wrap 1700000000)
        (Ref.envelope Ref.packet31 (some Ref.signerKey)) (some Ref.sinkKey)
        (some Ref.signerKey) I64.max (I64.wrap 31) (some Ref.buffer)).1 =
      (I64.wrap 31, some .ErrTimestamp) := by
  refine ⟨Ref.ParsePacket_envelope Ref.packet31, by decide, by decide, ?_⟩
  rw [ParseAndWritePacket_outside Ref.prims _ _ _ _ _ _ Ref.buffer Ref.packet31
    (Ref.ParsePacket_envelope Ref.packet31) (by decide)]

/-- C2 (amended). Replay rejection: an envelope that parses to `p`, with `p.Timestamp`
within drift of the clock, `|p.Timestamp - now| ≤ drift`, where `now + drift` and
`now - drift` do not overflow `int64`, and with `p.Counter ≤ c`, is refused with
`ErrCounter` and `c` is returned, whatever the non-nil writer; and whenever a first call
accepts the envelope and returns `c'`, a second call with the same envelope, clock and drift
and the counter `c'` is refused with `ErrCounter`. -/
theorem C2_replay_rejected (P : Prims) (now : I64) (input : List Byte)
    (priv : Option (List Byte)) (signer : Option P.RsaPublicKey) (drift c : I64)
    (w : Writer) (p : Packet) (hp : ParsePacket P input priv signer = .ok p)
    (hhi : now.val + drift.val ≤ 9223372036854775807)
    (hlo : -9223372036854775808 ≤ now.val - drift.val)
    (habs : |p.Timestamp.val - now.val| ≤ drift.val) (hc : p.Counter ≤ c) :
    (ParseAndWritePacket P now input priv signer drift c (some w)).1 = (c, some .ErrCounter) ∧
    ∀ (c0 c' : I64) (w0 : Writer),
      (ParseAndWritePacket P now input priv signer drift c0 (some w0)).1 = (c', none) →
      (ParseAndWritePacket P now input priv signer drift c'
        (ParseAndWritePacket P now input priv signer drift c0 (some w0)).2).1 =
        (c', some .ErrCounter) := by
  have hw := withinDrift_of_abs now drift p.Timestamp hhi hlo habs
  exact ⟨by rw [ParseAndWritePacket_stale P now input priv signer drift c w p hp hw hc],
    replay_after_accept P now input priv signer drift p hp⟩

theorem C2_replay_rejected_witness :
    (ParseAndWritePacket Ref.prims (I64.wrap 1700000000)
        (Ref.envelope Ref.packet31 (some Ref.signerKey)) (some Ref.sinkKey)
        (some Ref.signerKey) (I64.wrap 1) (I64.wrap 31) (some Ref.buffer)).1 =
      (I64.wrap 31, some .ErrCounter) :=
  (C2_replay_rejected Ref.prims (I64.wrap 1700000000) _ _ _ (I64.wrap 1) (I64.wrap 31)
    Ref.buffer Ref.packet31 (Ref.ParsePacket_envelope Ref.packet31)
    (by decide) (by decide) (by decide) (by decide)).1

/-- The error of a reached write is a library error, never one of the gate's own. -/
theorem write_error_ne (e : Option ExtErr) :
    e.map Err.ext ≠ some .ErrTimestamp ∧ e.map Err.ext ≠ some .ErrCounter := by
  cases e <;> simp

/-- `ParseAndWritePacket` fails with `ErrTimestamp` exactly when the timestamp is outside
the window the code computes. -/
theorem ErrTimestamp_iff (P : Prims) (now : I64) (input : List Byte)
    (priv : Option (List Byte)) (signer : Option P.RsaPublicKey) (drift counter : I64)
    (w : Writer) (p : Packet) (hp : ParsePacket P input priv signer = .ok p) :
    (ParseAndWritePacket P now input priv signer drift counter (some w)).1.2 =
        some .ErrTimestamp ↔ ¬ withinDrift now drift p.Timestamp := by
  constructor
  · intro h hw
    rw [ParseAndWritePacket_parsed P now input priv signer drift counter w p hp] at h
    simp only [hw.1, hw.2, if_false] at h
    by_cases h3 : p.Counter ≤ counter
    · simp [h3] at h
    · simp only [h3, if_false] at h
      exact (write_error_ne _).1 h
  · intro hw
    rw [ParseAndWritePacket_outside P now input priv signer drift counter w p hp hw]

/-- One second past either end of the window, computed in `int64`, is outside it. -/
theorem not_withinDrift_boundary (now drift : I64) :
    ¬ withinDrift now drift (now + drift + I64.wrap 1) ∧
    ¬ withinDrift now drift (now - drift - I64.wrap 1) := by
  have hn := now.lo
  have hn' := now.hi
  have hd := drift.lo
  have hd' := drift.hi
  unfold withinDrift
  simp only [I64.lt_def, gt_iff_lt, I64.add_val, I64.sub_val, I64.wrap_val]
  constructor <;> omega

/-- C3 (as stated, fails). With drift `math.MaxInt64` the sum `now + drift` overflows: a
packet stamped exactly `now` has `|p.Timestamp - now| = 0 ≤ drift` and is still refused
with `ErrTimestamp`. -/
theorem C3_counterexample :
    ParsePacket Ref.prims (Ref.envelope Ref.packet31 (some Ref.signerKey))
        (some Ref.sinkKey) (some Ref.signerKey) = .ok Ref.packet31 ∧
    |Ref.packet31.Timestamp.val - (I64.wrap 1700000000).val| ≤ I64.max.val ∧
    (ParseAndWritePacket Ref.prims (I64.wrap 1700000000)
        (Ref.envelope Ref.packet31 (some Ref.signerKey)) (some Ref.sinkKey)
        (some Ref.signerKey) I64.max (I64.wrap 0) (some Ref.buffer)).1.2 =
      some .ErrTimestamp := by
  refine ⟨Ref.ParsePacket_envelope Ref.packet31, by decide, ?_⟩
  rw [ParseAndWritePacket_outside Ref.prims _ _ _ _ _ _ Ref.buffer Ref.packet31
    (Ref.ParsePacket_envelope Ref.packet31) (by decide)]

/-- C3 (amended). Drift enforcement, for an envelope that parses to `p` and a non-nil
writer: the call fails with `ErrTimestamp` if and only if `p.Timestamp > now + drift` or
`p.Timestamp < now - drift`, the sum and difference taken in `int64` as the code takes
them; a packet stamped `now + drift + 1` or `now - drift - 1` (in `int64`) is refused with
`ErrTimestamp` whatever its counter; and when `now + drift` and `now - drift` do not
overflow, a packet with `|p.Timestamp - now| ≤ drift` is never refused with
`ErrTimestamp`. -/
theorem C3_drift_enforcement (P : Prims) (now : I64) (input : List Byte)
    (priv : Option (List Byte)) (signer : Option P.RsaPublicKey) (drift counter : I64)
    (w : Writer) (p : Packet) (hp : ParsePacket P input priv signer = .ok p) :
    ((ParseAndWritePacket P now input priv signer drift counter (some w)).1.2 =
        some .ErrTimestamp ↔ (p.Timestamp > now + drift ∨ p.Timestamp < now - drift)) ∧
    (p.Timestamp = now + drift + I64.wrap 1 ∨ p.Timestamp = now - drift - I64.wrap 1 →
      (ParseAndWritePacket P now input priv signer drift counter (some w)).1 =
        (counter, some .ErrTimestamp)) ∧
    (now.val + drift.val ≤ 9223372036854775807 → -9223372036854775808 ≤ now.val - drift.val →
      |p.Timestamp.val - now.val| ≤ drift.val →
      (ParseAndWritePacket P now input priv signer drift counter (some w)).1.2 ≠
        some .ErrTimestamp) := by
  have hiff := ErrTimestamp_iff P now input priv signer drift counter w p hp
  refine ⟨?_, ?_, ?_⟩
  · rw [hiff]
    unfold withinDrift
    simp only [gt_iff_lt]
    tauto
  · intro hts
    have hout : ¬ withinDrift now drift p.Timestamp := by
      rcases hts with h | h
      · rw [h]; exact (not_withinDrift_boundary now drift).1
      · rw [h]; exact (not_withinDrift_boundary now drift).2
    rw [ParseAndWritePacket_outside P now input priv signer drift counter w p hp hout]
  · intro hhi hlo habs h
    exact (hiff.mp h) (withinDrift_of_abs now drift p.Timestamp hhi hlo habs)

theorem C3_drift_enforcement_witness :
    (ParseAndWritePacket Ref.prims (I64.wrap 1700000002)
        (Ref.envelope Ref.packet31 (some Ref.signerKey)) (some Ref.sinkKey)
        (some Ref.signerKey) (I64.wrap 1) (I64.wrap 0) (some Ref.buffer)).1 =
      (I64.wrap 0, some .ErrTimestamp) :=
  (C3_drift_enforcement Ref.prims (I64.wrap 1700000002) _ _ _ (I64.wrap 1) (I64.wrap 0)
    Ref.buffer Ref.packet31 (Ref.ParsePacket_envelope Ref.packet31)).2.1
    (Or.inr (by decide))

/-- C4. No byte reaches the writer unless every check has passed: when parsing fails, or
the call fails with `ErrTimestamp` or with `ErrCounter`, the writer after the call is the
writer before it: no `Write` call was made and its contents are the same. -/
theorem C4_no_write_on_rejection (P : Prims) (now : I64) (input : List Byte)
    (priv : Option (List Byte)) (signer : Option P.RsaPublicKey) (drift counter : I64)
    (w : Option Writer)
    (h : (∃ err, ParsePacket P input priv signer = .error err) ∨
      (ParseAndWritePacket P now input priv signer drift counter w).1.2 = some .ErrTimestamp ∨
      (ParseAndWritePacket P now input priv signer drift counter w).1.2 = some .ErrCounter) :
    (ParseAndWritePacket P now input priv signer drift counter w).2 = w := by
  cases hp : ParsePacket P input priv signer with
  | error err => rw [ParseAndWritePacket_parse_error P now input priv signer drift counter w err hp]
  | ok p =>
    cases w with
    | none => rw [ParseAndWritePacket_nil_writer P now input priv signer drift counter p hp]
    | some w =>
      rw [ParseAndWritePacket_parsed P now input priv signer drift counter w p hp] at h ⊢
      by_cases h1 : now + drift < p.Timestamp
      · simp only [h1, if_true]
      · by_cases h2 : now - drift > p.Timestamp
        · simp only [h1, h2, if_true, if_false]
        · by_cases h3 : p.Counter ≤ counter
          · simp only [h1, h2, h3, if_true, if_false]
          · simp only [h1, h2, h3, if_false, hp] at h
            rcases h with ⟨err, he⟩ | h | h
            · cases he
            · exact absurd h (write_error_ne _).1
            · exact absurd h (write_error_ne _).2

theorem C4_no_write_on_rejection_witness :
    (ParseAndWritePacket Ref.prims (I64.wrap 1700000000)
        (Ref.envelope Ref.packet31 (some Ref.signerKey)) (some Ref.sinkKey)
        (some Ref.signerKey) (I64.wrap 1) (I64.wrap 31) (some Ref.buffer)).2 =
      some Ref.buffer :=
  C4_no_write_on_rejection Ref.prims (I64.wrap 1700000000) _ _ _ (I64.wrap 1) (I64.wrap 31)
    (some Ref.buffer)
    (Or.inr (Or.inr (by
      rw [ParseAndWritePacket_stale Ref.prims _ _ _ _ _ _ Ref.buffer Ref.packet31
        (Ref.ParsePacket_envelope Ref.packet31) (by decide) (by decide)])))

theorem Ref.buffer_accepts (c : List Byte) (chunk : Arr ChunkSize) :
    Ref.buffer.respond c chunk.val = (ChunkSize, none) := by
  show (chunk.val.length, none) = (ChunkSize, none)
  rw [chunk.property]

/-- C5 (as stated, fails). A validly signed packet for the sink with
`|p.Timestamp - now| = 1 ≤ drift` and a larger counter, and a writer that takes the
write: with drift `math.MaxInt64` the call is refused with `ErrTimestamp`, returns the
input counter 0 and writes nothing. -/
theorem C5_counterexample :
    (SerialiseWire Ref.prims Ref.rand Ref.packet31 (some Ref.sinkKey)
        (some Ref.signerKey)).1 = .ok (Ref.envelope Ref.packet31 (some Ref.signerKey)) ∧
    |Ref.packet31.Timestamp.val - (I64.wrap 1700000001).val| ≤ I64.max.val ∧
    I64.wrap 0 < Ref.packet31.Counter ∧
    Ref.buffer.respond Ref.buffer.contents Ref.packet31.Chunk.val = (ChunkSize, none) ∧
    ParseAndWritePacket Ref.prims (I64.wrap 1700000001)
        (Ref.envelope Ref.packet31 (some Ref.signerKey)) (some Ref.sinkKey)
        (some Ref.signerKey) I64.max (I64.wrap 0) (some Ref.buffer) =
      ((I64.wrap 0, some .ErrTimestamp), some Ref.buffer) := by
  refine ⟨Ref.SerialiseWire_envelope _ _, by decide, by decide, Ref.buffer_accepts _ _, ?_⟩
  rw [ParseAndWritePacket_outside Ref.prims _ _ _ _ _ _ Ref.buffer Ref.packet31
    (Ref.ParsePacket_envelope Ref.packet31) (by decide)]

/-- C5 (amended). Acceptance: for a validly signed packet `p` encrypted to the sink's key
with `|p.Timestamp - now| ≤ drift`, where `now + drift` and `now - drift` do not overflow
`int64`, and `p.Counter > counter`, and a writer that accepts the write,
`ParseAndWritePacket` returns `(p.Counter, nil)` and the writer has received one `Write`
holding exactly the 1024 bytes of `p.Chunk`, in order, and nothing else. -/
theorem C5_acceptance (P : Prims) (hL : Lawful P) (rnd : Reader) (p : Packet)
    (pub priv : List Byte) (sk : P.RsaPrivateKey) (pk : P.RsaPublicKey) (env : List Byte)
    (now drift counter : I64) (w : Writer)
    (hk : P.BoxKeyPair (copyArr 32 pub) (copyArr 32 priv)) (hs : P.RsaKeyPair pk sk)
    (he : (SerialiseWire P rnd p (some pub) (some sk)).1 = .ok env)
    (hhi : now.val + drift.val ≤ 9223372036854775807)
    (hlo : -9223372036854775808 ≤ now.val - drift.val)
    (habs : |p.Timestamp.val - now.val| ≤ drift.val) (hc : counter < p.Counter)
    (ha : w.respond w.contents p.Chunk.val = (ChunkSize, none)) :
    ParseAndWritePacket P now env (some priv) (some pk) drift counter (some w) =
      ((p.Counter, none),
       some { w with contents := w.contents ++ p.Chunk.val, calls := w.calls + 1 }) := by
  have hp := ParsePacket_SerialiseWire P hL rnd p pub priv sk pk env hk hs he
  have hw := withinDrift_of_abs now drift p.Timestamp hhi hlo habs
  rw [ParseAndWritePacket_fresh P now env _ _ drift counter w p hp hw hc]
  have htake : p.Chunk.val.take ChunkSize = p.Chunk.val :=
    List.take_of_length_le (Nat.le_of_eq p.Chunk.property)
  simp only [Writer.Write, ha, Option.map_none', htake]

theorem C5_acceptance_witness :
    ParseAndWritePacket Ref.prims (I64.wrap 1700000003)
        (Ref.envelope Ref.packet31 (some Ref.signerKey)) (some Ref.sinkKey)
        (some Ref.signerKey) (I64.wrap 4) (I64.wrap 0) (some Ref.buffer) =
      ((I64.wrap 31, none),
       some { Ref.buffer with
         contents := Ref.buffer.contents ++ Ref.packet31.Chunk.val,
         calls := Ref.buffer.calls + 1 }) :=
  C5_acceptance Ref.prims Ref.prims_lawful Ref.rand Ref.packet31 Ref.sinkKey Ref.sinkKey
    Ref.signerKey Ref.signerKey _ (I64.wrap 1700000003) (I64.wrap 4) (I64.wrap 0) Ref.buffer
    rfl rfl (Ref.SerialiseWire_envelope _ _) (by decide) (by decide) (by decide) (by decide)
    (Ref.buffer_accepts _ _)

/-! ## Claims on the envelope and the packet codec -/

/-- C6. Unsigned rejection at the packet layer: for every packet, every recipient key pair
and every signer public key (or none), `ParsePacket` on the envelope `SerialiseWire` made
with no signer returns no packet and `ErrUnsignedPacket`. -/
theorem C6_unsigned_rejected (P : Prims) (hL : Lawful P) (rnd : Reader) (p : Packet)
    (pub priv : List Byte) (verifier : Option P.RsaPublicKey) (env : List Byte)
    (hk : P.BoxKeyPair (copyArr 32 pub) (copyArr 32 priv))
    (he : (SerialiseWire P rnd p (some pub) none).1 = .ok env) :
    ParsePacket P env (some priv) verifier = .error .ErrUnsignedPacket :=
  ParsePacket_unsigned P hL rnd p pub priv verifier env hk he

theorem C6_unsigned_rejected_witness :
    ParsePacket Ref.prims (Ref.envelope Ref.packet31 none) (some Ref.sinkKey) none =
      .error .ErrUnsignedPacket :=
  C6_unsigned_rejected Ref.prims Ref.prims_lawful Ref.rand Ref.packet31 Ref.sinkKey
    Ref.sinkKey none _ rfl (Ref.SerialiseWire_envelope _ _)

/-- C7. Envelope round trip: for every message, every Curve25519 key pair and every RSA
signer key pair, under the contracts of the primitives, `Decrypt` of what `Encrypt`
returned gives the message back with no error, with `was_signed = true` when `Encrypt` had
a signer and `was_signed = false` when it had none (whatever verifier key is passed). -/
theorem C7_envelope_round_trip (P : Prims) (hL : Lawful P) (rnd : Reader)
    (m pub priv : List Byte) (hk : P.BoxKeyPair (copyArr 32 pub) (copyArr 32 priv)) :
    (∀ (sk : P.RsaPrivateKey) (pk : P.RsaPublicKey) (ct : List Byte),
      P.RsaKeyPair pk sk → (Encrypt P rnd m (some pub) (some sk)).1 = .ok ct →
      Decrypt P ct (some priv) (some pk) = .ok (m, true)) ∧
    (∀ (verifier : Option P.RsaPublicKey) (ct : List Byte),
      (Encrypt P rnd m (some pub) none).1 = .ok ct →
      Decrypt P ct (some priv) verifier = .ok (m, false)) := by
  constructor
  · intro sk pk ct hs he
    exact Decrypt_Encrypt P hL rnd m pub priv (some sk) (some pk) ct hk
      (fun sk' h => ⟨pk, rfl, by cases h; exact hs⟩) he
  · intro verifier ct he
    exact Decrypt_Encrypt P hL rnd m pub priv none verifier ct hk (fun sk' h => by cases h) he

theorem Ref.Encrypt_ciphertext (m : List Byte) (signer : Option Byte) :
    (Encrypt Ref.prims Ref.rand m (some Ref.sinkKey) signer).1 =
      .ok (Ref.ciphertext m signer) := by
  have h : ∃ out, (Encrypt Ref.prims Ref.rand m (some Ref.sinkKey) signer).1 = .ok out := by
    cases signer <;>
      simp [Encrypt, Ref.prims, newNonce, RandBytes, ReadFull, Ref.rand, nonceSize]
  obtain ⟨out, h⟩ := h
  simp only [Ref.ciphertext, h]

theorem C7_envelope_round_trip_witness :
    Decrypt Ref.prims (Ref.ciphertext Ref.message (some Ref.signerKey)) (some Ref.sinkKey)
        (some Ref.signerKey) = .ok (Ref.message, true) ∧
    Decrypt Ref.prims (Ref.ciphertext Ref.message none) (some Ref.sinkKey) none =
      .ok (Ref.message, false) :=
  ⟨(C7_envelope_round_trip Ref.prims Ref.prims_lawful Ref.rand Ref.message Ref.sinkKey
      Ref.sinkKey rfl).1 Ref.signerKey Ref.signerKey _ rfl (Ref.Encrypt_ciphertext _ _),
   (C7_envelope_round_trip Ref.prims Ref.prims_lawful Ref.rand Ref.message Ref.sinkKey
      Ref.sinkKey rfl).2 none _ (Ref.Encrypt_ciphertext _ _)⟩

/-- C8. Packet round trip: for every packet (any `int64` timestamp and counter, any
1024-byte chunk), every recipient key pair and every signer key pair, under the contracts
of the primitives, `ParsePacket` of what `SerialiseWire` returned succeeds with a packet
equal to the original in `Timestamp`, `Counter` and all of `Chunk`. -/
theorem C8_packet_round_trip (P : Prims) (hL : Lawful P) (rnd : Reader) (p : Packet)
    (pub priv : List Byte) (sk : P.RsaPrivateKey) (pk : P.RsaPublicKey) (env : List Byte)
    (hk : P.BoxKeyPair (copyArr 32 pub) (copyArr 32 priv)) (hs : P.RsaKeyPair pk sk)
    (he : (SerialiseWire P rnd p (some pub) (some sk)).1 = .ok env) :
    ParsePacket P env (some priv) (some pk) = .ok p :=
  ParsePacket_SerialiseWire P hL rnd p pub priv sk pk env hk hs he

theorem C8_packet_round_trip_witness :
    ParsePacket Ref.prims (Ref.envelope Ref.packet31 (some Ref.signerKey))
      (some Ref.sinkKey) (some Ref.signerKey) = .ok Ref.packet31 :=
  C8_packet_round_trip Ref.prims Ref.prims_lawful Ref.rand Ref.packet31 Ref.sinkKey
    Ref.sinkKey Ref.signerKey Ref.signerKey _ rfl rfl (Ref.SerialiseWire_envelope _ _)

/-! ## Claims on `NewPacket` -/

/-- C9. Counter preservation on failure: for every counter `c` and every reader that stops
before 1024 bytes, `NewPacket` returns exactly `(c, nil, err)` with `err` non-nil. -/
theorem C9_counter_preserved (now c : I64) (r : Reader) (h : r.data.length < ChunkSize) :
    (NewPacket now c r).1 = (c, none, some r.stopError) := by
  rw [NewPacket_short now c r h]

theorem C9_counter_preserved_witness :
    (NewPacket (I64.wrap 1700000000) (I64.wrap 31) Ref.emptyReader).1 =
      (I64.wrap 31, none, some .EOF) :=
  C9_counter_preserved (I64.wrap 1700000000) (I64.wrap 31) Ref.emptyReader (by decide)

theorem Ref.fullReader_length : ChunkSize ≤ Ref.fullReader.data.length := by
  simp only [Ref.fullReader, List.length_append, List.length_replicate, ChunkSize]
  omega

/-- C10 (as stated, fails). At the largest counter `math.MaxInt64`, with a reader that
supplies 2048 bytes, `counter++` wraps: the returned counter is `math.MinInt64`, which is
not greater than the input. -/
theorem C10_counterexample :
    ChunkSize ≤ Ref.fullReader.data.length ∧
    (NewPacket (I64.wrap 1700000000) I64.max Ref.fullReader).1.1 = I64.min ∧
    ¬ (I64.max < (NewPacket (I64.wrap 1700000000) I64.max Ref.fullReader).1.1) := by
  rw [NewPacket_full _ _ _ Ref.fullReader_length]
  exact ⟨Ref.fullReader_length, by decide, by decide⟩

/-- C10 (amended). For every `int64` counter `c` and every reader that supplies at least
1024 bytes, `NewPacket` returns no error, the counter `c + 1` computed in `int64`, and a
packet whose `Counter` is the returned counter, whose `Chunk` is the first 1024 bytes of
the reader and whose `Timestamp` is the clock reading; for every `c` below
`math.MaxInt64` the returned counter is exactly one more than `c`, hence strictly
greater. -/
theorem C10_new_packet (now c : I64) (r : Reader) (h : ChunkSize ≤ r.data.length) :
    ∃ pkt : Packet,
      (NewPacket now c r).1 = (c + I64.wrap 1, some pkt, none) ∧
      pkt.Counter = c + I64.wrap 1 ∧
      pkt.Chunk.val = r.data.take ChunkSize ∧
      pkt.Timestamp = now ∧
      (c.val < 9223372036854775807 →
        (c + I64.wrap 1).val = c.val + 1 ∧ c < c + I64.wrap 1) := by
  refine ⟨_, by rw [NewPacket_full now c r h], rfl, ?_, rfl, ?_⟩
  · exact copyArr_val_of_length (by rw [List.length_take]; omega)
  · intro hc
    have hlo := c.lo
    have hv : (c + I64.wrap 1).val = c.val + 1 := by
      rw [I64.add_val, I64.wrap_val]; omega
    exact ⟨hv, by rw [I64.lt_def, hv]; omega⟩

theorem C10_new_packet_witness :
    ∃ pkt : Packet,
      (NewPacket (I64.wrap 1700000000) (I64.wrap 30) Ref.fullReader).1 =
        (I64.wrap 30 + I64.wrap 1, some pkt, none) ∧
      pkt.Counter = I64.wrap 30 + I64.wrap 1 ∧
      pkt.Chunk.val = Ref.fullReader.data.take ChunkSize ∧
      pkt.Timestamp = I64.wrap 1700000000 ∧
      ((I64.wrap 30).val < 9223372036854775807 →
        (I64.wrap 30 + I64.wrap 1).val = (I64.wrap 30).val + 1 ∧
          I64.wrap 30 < I64.wrap 30 + I64.wrap 1) :=
  C10_new_packet (I64.wrap 1700000000) (I64.wrap 30) Ref.fullReader Ref.fullReader_length

/-! ## The sink counter -/

theorem ParseAndWritePacket_counter_le (P : Prims) (now : I64) (input : List Byte)
    (priv : Option (List Byte)) (signer : Option P.RsaPublicKey) (drift counter : I64)
    (w : Option Writer) :
    counter ≤ (ParseAndWritePacket P now input priv signer drift counter w).1.1 := by
  rcases ParseAndWritePacket_counter_cases P now input priv signer drift counter w with
    h | ⟨p, w0, _, _, _, hc, h⟩
  · rw [h]; exact Int.le_refl _
  · rw [h]; exact Int.le_of_lt hc

theorem ParseAndWritePacket_counter_lt_iff (P : Prims) (now : I64) (input : List Byte)
    (priv : Option (List Byte)) (signer : Option P.RsaPublicKey) (drift counter : I64)
    (w : Option Writer) :
    counter < (ParseAndWritePacket P now input priv signer drift counter w).1.1 ↔
      passedChecks P now input priv signer drift counter w := by
  constructor
  · intro hlt
    rcases ParseAndWritePacket_counter_cases P now input priv signer drift counter w with
      h | ⟨p, w0, hp, hw, hd, hc, _⟩
    · rw [h] at hlt; exact absurd hlt (Int.lt_irrefl _)
    · exact ⟨p, w0, hp, hw, hd, hc⟩
  · rintro ⟨p, w0, hp, hw, hd, hc⟩
    rw [hw, ParseAndWritePacket_fresh P now input priv signer drift counter w0 p hp hd hc]
    exact hc

/-- A packet whose counter is not above the sink's leaves the counter where it is, whatever
the clock and the writer. -/
theorem ParseAndWritePacket_not_above (P : Prims) (now : I64) (input : List Byte)
    (priv : Option (List Byte)) (signer : Option P.RsaPublicKey) (drift counter : I64)
    (w : Option Writer) (p : Packet) (hp : ParsePacket P input priv signer = .ok p)
    (hc : p.Counter ≤ counter) :
    (ParseAndWritePacket P now input priv signer drift counter w).1.1 = counter := by
  rcases ParseAndWritePacket_counter_cases P now input priv signer drift counter w with
    h | ⟨p', w0, hp', _, _, hc', _⟩
  · exact h
  · rw [hp] at hp'
    cases hp'
    rw [I64.le_def] at hc
    rw [I64.lt_def] at hc'
    omega

theorem receive_counter_le (P : Prims) (cfg : SinkConfig P) (now : I64) (conn : Conn)
    (state : SinkState) : state.Counter ≤ (receive P cfg now conn state).1.Counter := by
  unfold receive
  split
  · exact Int.le_refl _
  · dsimp only
    split
    · exact Int.le_refl _
    · exact ParseAndWritePacket_counter_le P now _ _ _ _ _ _

theorem receive_ErrCounter (P : Prims) (cfg : SinkConfig P) (now : I64) (conn : Conn)
    (state : SinkState) (h : (receive P cfg now conn state).2 = some .ErrCounter) :
    (receive P cfg now conn state).1.Counter = state.Counter := by
  unfold receive at h ⊢
  rcases hr : conn.Read 2 with ⟨⟨read, e⟩, conn1⟩
  cases e with
  | some err => rfl
  | none =>
    dsimp only at h ⊢
    rcases hf : ReadFull conn1.toReader (Uint16 (copyArr 2 read)) with ⟨res, r'⟩
    cases res with
    | error err => rfl
    | ok packet =>
      dsimp only at h ⊢
      rcases ParseAndWritePacket_counter_cases P now packet cfg.Private cfg.Signer cfg.Drift
        state.Counter state.PRNG with h' | ⟨p, w0, _, _, _, _, h'⟩
      · exact h'
      · simp only [hr, hf, h'] at h
        exact absurd h (write_error_ne _).2

theorem serve_append (P : Prims) (cfg : SinkConfig P) (conns more : List (I64 × Conn))
    (state : SinkState) :
    serve P cfg (conns ++ more) state = serve P cfg more (serve P cfg conns state) := by
  simp only [serve, List.foldl_append]

theorem serve_counter_le (P : Prims) (cfg : SinkConfig P) (conns : List (I64 × Conn))
    (state : SinkState) : state.Counter ≤ (serve P cfg conns state).Counter := by
  induction conns generalizing state with
  | nil => exact Int.le_refl _
  | cons c rest ih =>
    have h1 := receive_counter_le P cfg c.1 c.2 state
    have h2 := ih (receive P cfg c.1 c.2 state).1
    have h3 : serve P cfg (c :: rest) state = serve P cfg rest (receive P cfg c.1 c.2 state).1 :=
      rfl
    rw [h3]
    exact Int.le_trans h1 h2

/-- C11. The sink counter only advances: for every call of `ParseAndWritePacket` the
returned counter is at least the input counter, and strictly greater exactly when the packet
passed parsing and both freshness checks (which the call reaches with a non-nil writer);
every `receive` leaves `state.Counter` at least where it was, so along any sequence of
`receive` calls it never decreases; and a packet whose counter is not above the sink's (out
of order or duplicate), as well as any `receive` refused with `ErrCounter`, leaves the
counter unchanged. -/
theorem C11_counter_only_advances (P : Prims) (cfg : SinkConfig P) :
    (∀ (now : I64) (input : List Byte) (priv : Option (List Byte))
        (signer : Option P.RsaPublicKey) (drift counter : I64) (w : Option Writer),
      counter ≤ (ParseAndWritePacket P now input priv signer drift counter w).1.1 ∧
      (counter < (ParseAndWritePacket P now input priv signer drift counter w).1.1 ↔
        passedChecks P now input priv signer drift counter w)) ∧
    (∀ (now : I64) (conn : Conn) (state : SinkState),
      state.Counter ≤ (receive P cfg now conn state).1.Counter) ∧
    (∀ (conns more : List (I64 × Conn)) (state : SinkState),
      state.Counter ≤ (serve P cfg conns state).Counter ∧
      (serve P cfg conns state).Counter ≤ (serve P cfg (conns ++ more) state).Counter) ∧
    (∀ (now : I64) (input : List Byte) (priv : Option (List Byte))
        (signer : Option P.RsaPublicKey) (drift counter : I64) (w : Option Writer)
        (p : Packet),
      ParsePacket P input priv signer = .ok p → p.Counter ≤ counter →
      (ParseAndWritePacket P now input priv signer drift counter w).1.1 = counter) ∧
    (∀ (now : I64) (conn : Conn) (state : SinkState),
      (receive P cfg now conn state).2 = some .ErrCounter →
      (receive P cfg now conn state).1.Counter = state.Counter) := by
  refine ⟨?_, ?_, ?_, ?_, ?_⟩
  · intro now input priv signer drift counter w
    exact ⟨ParseAndWritePacket_counter_le P now input priv signer drift counter w,
      ParseAndWritePacket_counter_lt_iff P now input priv signer drift counter w⟩
  · exact receive_counter_le P cfg
  · intro conns more state
    refine ⟨serve_counter_le P cfg conns state, ?_⟩
    rw [serve_append]
    exact serve_counter_le P cfg more _
  · intro now input priv signer drift counter w p hp hc
    exact ParseAndWritePacket_not_above P now input priv signer drift counter w p hp hc
  · exact receive_ErrCounter P cfg

/-! ## `Target.Send` -/

/-- Whatever `Send` returns, the target it leaves is the old one with the counter `NewPacket`
returned. -/
theorem Send_target (P : Prims) (env : SendEnv) (t : Target)
    (signer : Option P.RsaPrivateKey) :
    (t.Send P env signer).t =
      { t with Counter := (NewPacket env.clock t.Counter env.prng).1.1 } := by
  unfold Target.Send
  dsimp only
  repeat' split
  all_goals rfl

/-- A nil return means the PRNG supplied a whole chunk. -/
theorem Send_ok_prng (P : Prims) (env : SendEnv) (t : Target)
    (signer : Option P.RsaPrivateKey) (h : (t.Send P env signer).err = none) :
    ChunkSize ≤ env.prng.data.length := by
  by_contra hlt
  have hs := NewPacket_short env.clock t.Counter env.prng (by omega)
  unfold Target.Send at h
  rw [hs] at h
  simp at h

theorem Send_prng_short (P : Prims) (env : SendEnv) (t : Target)
    (signer : Option P.RsaPrivateKey) (h : env.prng.data.length < ChunkSize) :
    (t.Send P env signer).err = some env.prng.stopError ∧
      (t.Send P env signer).t.Counter = t.Counter := by
  have hs := NewPacket_short env.clock t.Counter env.prng h
  refine ⟨?_, by rw [Send_target, hs]⟩
  unfold Target.Send
  rw [hs]

/-- With a whole chunk on offer, `Send` goes on with the packet `sendPacket` and the counter
already stored in the target. -/
theorem Send_full (P : Prims) (env : SendEnv) (t : Target) (signer : Option P.RsaPrivateKey)
    (h : ChunkSize ≤ env.prng.data.length) :
    t.Send P env signer =
      (let t1 : Target := { t with Counter := t.Counter + I64.wrap 1 }
       let env1 : SendEnv := { env with prng := { env.prng with data := env.prng.data.drop ChunkSize } }
       match SerialiseWire P env.rnd (sendPacket env t) t.Public signer with
       | (.error err, rnd') =>
         { t := t1, err := some err, env := { env1 with rnd := rnd' }, header := none,
           body := none, conn := none }
       | (.ok out, rnd') =>
         let env2 : SendEnv := { env1 with rnd := rnd' }
         let header := PutUint16 (uint16 out.length)
         match env.dial t.Address with
         | .error e => { t := t1, err := some (.ext e), env := env2, header := none,
                         body := none, conn := none }
         | .ok conn =>
           match (conn.Write header.val).2.2 with
           | some e => { t := t1, err := some (.ext e), env := env2, header := some header,
                         body := none, conn := some (conn.Write header.val).1 }
           | none =>
             match ((conn.Write header.val).1.Write out).2.2 with
             | some e => { t := t1, err := some (.ext e), env := env2, header := some header,
                           body := some out, conn := some ((conn.Write header.val).1.Write out).1 }
             | none => { t := t1, err := none, env := env2, header := some header,
                         body := some out, conn := some ((conn.Write header.val).1.Write out).1 }) := by
  unfold Target.Send
  rw [NewPacket_full env.clock t.Counter env.prng h]
  rfl

/-- What `Send` hands to the connection: a header it writes is `PutUint16(uint16(len(out)))`
for the envelope `out` that `SerialiseWire` returned, and a body it writes is that `out`. -/
theorem Send_wire (P : Prims) (env : SendEnv) (t : Target) (signer : Option P.RsaPrivateKey)
    (hd : Arr 2) (h : (t.Send P env signer).header = some hd) :
    ∃ out, (SerialiseWire P env.rnd (sendPacket env t) t.Public signer).1 = .ok out ∧
      hd = PutUint16 (uint16 out.length) ∧
      ∀ b, (t.Send P env signer).body = some b → b = out := by
  by_cases hlen : ChunkSize ≤ env.prng.data.length
  · rw [Send_full P env t signer hlen] at h ⊢
    dsimp only at h ⊢
    rcases hs : SerialiseWire P env.rnd (sendPacket env t) t.Public signer with ⟨res, rnd'⟩
    rw [hs] at h
    cases res with
    | error err => simp at h
    | ok out =>
      dsimp only at h ⊢
      refine ⟨out, rfl, ?_⟩
      cases hdial : env.dial t.Address with
      | error e => rw [hdial] at h; simp at h
      | ok conn =>
        rw [hdial] at h
        dsimp only at h ⊢
        cases hw1 : (conn.Write (PutUint16 (uint16 out.length)).val).2.2 with
        | some e =>
          rw [hw1] at h
          simp only [Option.some.injEq] at h
          exact ⟨h.symm, by intro b hb; simp at hb⟩
        | none =>
          rw [hw1] at h
          dsimp only at h ⊢
          cases hw2 : ((conn.Write (PutUint16 (uint16 out.length)).val).1.Write out).2.2 with
          | some e =>
            rw [hw2] at h
            simp only [Option.some.injEq] at h
            exact ⟨h.symm, by intro b hb; simp only [Option.some.injEq] at hb; exact hb.symm⟩
          | none =>
            rw [hw2] at h
            simp only [Option.some.injEq] at h
            exact ⟨h.symm, by intro b hb; simp only [Option.some.injEq] at hb; exact hb.symm⟩
  · have hs := NewPacket_short env.clock t.Counter env.prng (by omega)
    unfold Target.Send at h
    rw [hs] at h
    simp at h

/-- A dial failure after the packet was built: `Send` returns the error, nothing was
written, and the counter of the target has already moved. -/
theorem Send_dial_error (P : Prims) (env : SendEnv) (t : Target)
    (signer : Option P.RsaPrivateKey) (out : List Byte) (e : ExtErr)
    (hlen : ChunkSize ≤ env.prng.data.length)
    (hs : (SerialiseWire P env.rnd (sendPacket env t) t.Public signer).1 = .ok out)
    (hd : env.dial t.Address = .error e) :
    (t.Send P env signer).err = some (.ext e) ∧
    (t.Send P env signer).t.Counter = t.Counter + I64.wrap 1 ∧
    (t.Send P env signer).header = none := by
  rw [Send_full P env t signer hlen]
  dsimp only
  rcases hp : SerialiseWire P env.rnd (sendPacket env t) t.Public signer with ⟨res, rnd'⟩
  rw [hp] at hs
  simp only at hs
  subst hs
  simp only [hd]
  refine ⟨?_, ?_, ?_⟩ <;> first | rfl | trivial

/-- A send in which every step succeeds. -/
theorem Send_success (P : Prims) (env : SendEnv) (t : Target)
    (signer : Option P.RsaPrivateKey) (out : List Byte) (conn : Writer)
    (hlen : ChunkSize ≤ env.prng.data.length)
    (hs : (SerialiseWire P env.rnd (sendPacket env t) t.Public signer).1 = .ok out)
    (hd : env.dial t.Address = .ok conn)
    (hw1 : (conn.Write (PutUint16 (uint16 out.length)).val).2.2 = none)
    (hw2 : ((conn.Write (PutUint16 (uint16 out.length)).val).1.Write out).2.2 = none) :
    (t.Send P env signer).err = none ∧
    (t.Send P env signer).t.Counter = t.Counter + I64.wrap 1 ∧
    (t.Send P env signer).header = some (PutUint16 (uint16 out.length)) ∧
    (t.Send P env signer).body = some out := by
  rw [Send_full P env t signer hlen]
  dsimp only
  rcases hp : SerialiseWire P env.rnd (sendPacket env t) t.Public signer with ⟨res, rnd'⟩
  rw [hp] at hs
  simp only at hs
  subst hs
  simp only [hd, hw1, hw2]
  refine ⟨?_, ?_, ?_, ?_⟩ <;> first | rfl | trivial

theorem Ref.unreachable_length : ChunkSize ≤ Ref.unreachable.prng.data.length :=
  Ref.fullReader_length

/-- C12 (as stated, fails). A send to an unreachable sink: the PRNG supplies the chunk, the
envelope is built, `net.Dial` fails. `Send` returns the dial error and the target's counter
is 31, not the 30 it had before the call. -/
theorem C12_counterexample :
    Ref.target30.Counter = I64.wrap 30 ∧
    (Ref.target30.Send Ref.prims Ref.unreachable (some Ref.signerKey)).err =
      some (.ext ⟨7⟩) ∧
    (Ref.target30.Send Ref.prims Ref.unreachable (some Ref.signerKey)).t.Counter =
      I64.wrap 31 := by
  have h := Send_dial_error Ref.prims Ref.unreachable Ref.target30 (some Ref.signerKey) _ ⟨7⟩
    Ref.unreachable_length (Ref.SerialiseWire_envelope _ _) rfl
  refine ⟨rfl, h.1, ?_⟩
  rw [h.2.1]
  decide

/-- C12 (amended). Whatever `Send` returns, `t.Address`, `t.Public` and `t.Next` equal their
values before the call. When the PRNG read fails, `Send` returns its error and `t.Counter`
is unchanged; once the PRNG has supplied the chunk, `t.Counter` is `counter + 1` (in
`int64`) whether `Send` then returns nil or fails (serialisation or encryption, dial, header
or body write); in particular `t.Counter` is `counter + 1` when `Send` returns nil. -/
theorem C12_failed_send (P : Prims) (env : SendEnv) (t : Target)
    (signer : Option P.RsaPrivateKey) :
    (t.Send P env signer).t.Address = t.Address ∧
    (t.Send P env signer).t.Public = t.Public ∧
    (t.Send P env signer).t.Next = t.Next ∧
    (env.prng.data.length < ChunkSize →
      (t.Send P env signer).err = some env.prng.stopError ∧
      (t.Send P env signer).t.Counter = t.Counter) ∧
    (ChunkSize ≤ env.prng.data.length →
      (t.Send P env signer).t.Counter = t.Counter + I64.wrap 1) ∧
    ((t.Send P env signer).err = none →
      (t.Send P env signer).t.Counter = t.Counter + I64.wrap 1) := by
  have hfull : ChunkSize ≤ env.prng.data.length →
      (t.Send P env signer).t.Counter = t.Counter + I64.wrap 1 := by
    intro h
    rw [Send_target, NewPacket_full env.clock t.Counter env.prng h]
  refine ⟨by rw [Send_target], by rw [Send_target], by rw [Send_target], ?_, hfull, ?_⟩
  · exact Send_prng_short P env t signer
  · intro h
    exact hfull (Send_ok_prng P env t signer h)

/-! ## The scheduler: `targetCheck` and one pass of `Start` -/

theorem Checked.updated_iff (c : Checked) : c.updated = true ↔ c.sent = some none := by
  unfold Checked.updated
  split
  · simp_all
  · rename_i h
    constructor
    · intro hf; cases hf
    · intro hs; exact absurd hs (h)

theorem targetCheck_sent (P : Prims) (env : SendEnv) (t : Target)
    (signer : Option P.RsaPrivateKey) (now : I64) :
    ((targetCheck P env t signer now).sent.isSome = true ↔ t.Next < now) ∧
    (targetCheck P env t signer now).t.Next = t.Next ∧
    (targetCheck P env t signer now).t.Address = t.Address := by
  unfold targetCheck
  by_cases h : t.Next < now
  · simp only [h, if_true, Option.isSome_some, Send_target, and_self]
  · simp only [h, if_false, Option.isSome_none, and_true]
    simp

theorem scanTargets_spec (P : Prims) (signer : Option P.RsaPrivateKey) (now : I64)
    (env : SendEnv) (ts : List Target) (flag : Bool) :
    List.Forall₂ (scanned now) ts (scanTargets P signer now env ts flag).1 ∧
    ((scanTargets P signer now env ts flag).2.1 = true ↔
      flag = true ∨ ∃ c ∈ (scanTargets P signer now env ts flag).1, c.sent = some none) := by
  induction ts generalizing env flag with
  | nil => simp [scanTargets]
  | cons t rest ih =>
    have hc := targetCheck_sent P env t signer now
    have hu := Checked.updated_iff (targetCheck P env t signer now)
    by_cases hup : (targetCheck P env t signer now).updated = true
    · have hs := hu.mp hup
      have ih' := ih (targetCheck P env t signer now).env true
      simp only [scanTargets, hup, if_true]
      refine ⟨List.Forall₂.cons ⟨hc.1, ?_, hc.2.2⟩ ih'.1, ?_⟩
      · simp only [hs, if_true]
      · constructor
        · intro _
          exact Or.inr ⟨_, List.mem_cons_self _ _, hs⟩
        · intro _
          exact ih'.2.mpr (Or.inl rfl)
    · have hs : ¬ (targetCheck P env t signer now).sent = some none := fun h => hup (hu.mpr h)
      have hupf : (targetCheck P env t signer now).updated = false := by
        cases hb : (targetCheck P env t signer now).updated
        · rfl
        · exact absurd hb hup
      have ih' := ih (targetCheck P env t signer now).env flag
      simp only [scanTargets, hupf, Bool.false_eq_true, if_false]
      refine ⟨List.Forall₂.cons ⟨hc.1, ?_, hc.2.2⟩ ih'.1, ?_⟩
      · simp only [hs, if_false, hc.2.1]
      · rw [ih'.2]
        constructor
        · rintro (h | ⟨c, hm, hcs⟩)
          · exact Or.inl h
          · exact Or.inr ⟨c, List.mem_cons_of_mem _ hm, hcs⟩
        · rintro (h | ⟨c, hm, hcs⟩)
          · exact Or.inl h
          · rcases List.mem_cons.mp hm with heq | hm'
            · rw [heq] at hcs; exact absurd hcs hs
            · exact Or.inr ⟨c, hm', hcs⟩

theorem delaySeconds_val (now : I64) (h : now.val ≤ 9223372036854754207) :
    (now + delaySeconds).val = now.val + 21600 := by
  have hlo := now.lo
  have hd : delaySeconds.val = 21600 := by decide
  rw [I64.add_val, hd]
  omega

/-! ### The pass in terms of `Send` -/

theorem targetCheck_passEntry (P : Prims) (signer : Option P.RsaPrivateKey) (now : I64)
    (env : SendEnv) (t : Target) :
    (targetCheck P env t signer now).env = (passEntry P signer now env t).env ∧
    (targetCheck P env t signer now).sent = (passEntry P signer now env t).sent ∧
    (targetCheck P env t signer now).updated = (passEntry P signer now env t).updated := by
  unfold targetCheck passEntry Checked.updated
  by_cases h : t.Next < now
  · simp only [h, if_true, and_self]
  · simp only [h, if_false, and_self]

/-- What the loop body makes of one target is `passEntry`. -/
theorem loopBody_passEntry (P : Prims) (signer : Option P.RsaPrivateKey) (now : I64)
    (env : SendEnv) (t : Target) :
    (if (targetCheck P env t signer now).updated then
        { targetCheck P env t signer now with
          t := { (targetCheck P env t signer now).t with Next := now + delaySeconds } }
      else targetCheck P env t signer now) = passEntry P signer now env t := by
  unfold targetCheck passEntry
  by_cases h : t.Next < now
  · simp only [h, if_true]
    cases herr : (t.Send P env signer).err with
    | none => simp only [Checked.updated, herr, if_true]
    | some e =>
      have hne : ¬ (some e : Option Err) = none := by simp
      simp only [Checked.updated, herr, hne, if_false, Bool.false_eq_true]
      rw [Send_target]
  · simp only [h, if_false, Checked.updated, Bool.false_eq_true]

theorem scanTargets_cons (P : Prims) (signer : Option P.RsaPrivateKey) (now : I64)
    (env : SendEnv) (t : Target) (rest : List Target) (flag : Bool) :
    scanTargets P signer now env (t :: rest) flag =
      (passEntry P signer now env t ::
        (scanTargets P signer now (passEntry P signer now env t).env rest
          (if (passEntry P signer now env t).updated then true else flag)).1,
       (scanTargets P signer now (passEntry P signer now env t).env rest
          (if (passEntry P signer now env t).updated then true else flag)).2.1,
       (scanTargets P signer now (passEntry P signer now env t).env rest
          (if (passEntry P signer now env t).updated then true else flag)).2.2) := by
  have h := targetCheck_passEntry P signer now env t
  have hb := loopBody_passEntry P signer now env t
  simp only [scanTargets]
  rw [hb, h.1, h.2.2]

theorem scanTargets_flag (P : Prims) (signer : Option P.RsaPrivateKey) (now : I64)
    (env : SendEnv) (ts : List Target) (flag : Bool) :
    (scanTargets P signer now env ts flag).1 = (scanTargets P signer now env ts false).1 ∧
    (scanTargets P signer now env ts flag).2.2 = (scanTargets P signer now env ts false).2.2 := by
  induction ts generalizing env flag with
  | nil => exact ⟨rfl, rfl⟩
  | cons t rest ih =>
    rw [scanTargets_cons P signer now env t rest flag,
      scanTargets_cons P signer now env t rest false]
    have h1 := ih (passEntry P signer now env t).env
      (if (passEntry P signer now env t).updated then true else flag)
    have h2 := ih (passEntry P signer now env t).env
      (if (passEntry P signer now env t).updated then true else false)
    exact ⟨by rw [h1.1, h2.1], by rw [h1.2, h2.2]⟩

theorem envAfter_nil (P : Prims) (signer : Option P.RsaPrivateKey) (now : I64)
    (env : SendEnv) : envAfter P signer now env [] = env := rfl

theorem envAfter_cons (P : Prims) (signer : Option P.RsaPrivateKey) (now : I64)
    (env : SendEnv) (t : Target) (pre : List Target) :
    envAfter P signer now env (t :: pre) =
      envAfter P signer now (passEntry P signer now env t).env pre := by
  unfold envAfter
  rw [scanTargets_cons]
  exact (scanTargets_flag P signer now _ pre _).2

theorem passEntry_updated (P : Prims) (signer : Option P.RsaPrivateKey) (now : I64)
    (env : SendEnv) (t : Target) :
    (passEntry P signer now env t).updated = true ↔
      t.Next < now ∧ (t.Send P env signer).err = none := by
  rw [Checked.updated_iff]
  unfold passEntry
  by_cases h : t.Next < now
  · simp only [h, if_true, Option.some.injEq, true_and]
  · simp only [h, if_false, false_and]
    constructor
    · intro hf; cases hf
    · intro hf; exact hf.elim

/-- The entry a pass records for the target that follows `pre` is `passEntry` in the
environment the sends to `pre` left. -/
theorem scanTargets_split (P : Prims) (signer : Option P.RsaPrivateKey) (now : I64)
    (env : SendEnv) (pre : List Target) (t : Target) (post : List Target) (flag : Bool) :
    ∃ after : List Checked,
      (scanTargets P signer now env (pre ++ t :: post) flag).1 =
        (scanTargets P signer now env pre false).1 ++
          passEntry P signer now (envAfter P signer now env pre) t :: after ∧
      after.length = post.length ∧
      (scanTargets P signer now env pre false).1.length = pre.length := by
  induction pre generalizing env flag with
  | nil =>
    rw [List.nil_append, scanTargets_cons]
    refine ⟨_, rfl, ?_, rfl⟩
    generalize (passEntry P signer now env t).env = e
    generalize (if (passEntry P signer now env t).updated then true else flag) = f
    induction post generalizing e f with
    | nil => rfl
    | cons x rest ihp =>
      rw [scanTargets_cons]
      simp only [List.length_cons, ihp]
  | cons x pre ih =>
    obtain ⟨after, h1, h2, h3⟩ := ih (passEntry P signer now env x).env
      (if (passEntry P signer now env x).updated then true else flag)
    refine ⟨after, ?_, h2, ?_⟩
    · rw [List.cons_append, scanTargets_cons, h1, scanTargets_cons P signer now env x pre false,
        envAfter_cons]
      simp only [List.cons_append]
      rw [(scanTargets_flag P signer now (passEntry P signer now env x).env pre
        (if (passEntry P signer now env x).updated then true else false)).1]
    · rw [scanTargets_cons]
      simp only [List.length_cons]
      rw [(scanTargets_flag P signer now (passEntry P signer now env x).env pre
        (if (passEntry P signer now env x).updated then true else false)).1, h3]

/-- The flag after the loop: it was set before, or some due target was sent to and `Send`
returned nil. -/
theorem scanTargets_flag_iff (P : Prims) (signer : Option P.RsaPrivateKey) (now : I64)
    (env : SendEnv) (ts : List Target) (flag : Bool) :
    (scanTargets P signer now env ts flag).2.1 = true ↔
      flag = true ∨ ∃ pre t post, ts = pre ++ t :: post ∧ t.Next < now ∧
        (t.Send P (envAfter P signer now env pre) signer).err = none := by
  induction ts generalizing env flag with
  | nil =>
    constructor
    · intro h; exact Or.inl h
    · rintro (h | ⟨pre, t, post, h, _⟩)
      · exact h
      · exact absurd h (by simp)
  | cons x rest ih =>
    rw [scanTargets_cons]
    simp only
    rw [ih]
    have hu := passEntry_updated P signer now env x
    constructor
    · rintro (h | ⟨pre, t, post, hsplit, hlt, herr⟩)
      · by_cases hx : (passEntry P signer now env x).updated = true
        · exact Or.inr ⟨[], x, rest, rfl, (hu.mp hx).1, (hu.mp hx).2⟩
        · simp only [hx, if_false, Bool.false_eq_true] at h
          exact Or.inl h
      · refine Or.inr ⟨x :: pre, t, post, by rw [hsplit]; rfl, hlt, ?_⟩
        rw [envAfter_cons]; exact herr
    · rintro (h | ⟨pre, t, post, hsplit, hlt, herr⟩)
      · left; rw [h]; simp
      · cases pre with
        | nil =>
          simp only [List.nil_append, List.cons.injEq] at hsplit
          left
          have hx : (passEntry P signer now env x).updated = true := by
            rw [hu, hsplit.1]; exact ⟨hlt, herr⟩
          simp only [hx, if_true]
        | cons y pre' =>
          simp only [List.cons_append, List.cons.injEq] at hsplit
          right
          refine ⟨pre', t, post, hsplit.2, hlt, ?_⟩
          rw [envAfter_cons, ← hsplit.1] at herr
          exact herr

/-- C13 (amended). Scheduler rule, for one pass of `Start` at scan time `now` over the
loaded targets (the flag `targetUpdate` is false when a pass begins and false again when it
ends). For every target `t` of the file, met in the environment the earlier sends left: if
`t.Next < now`, `Send` is called on it, and the pass keeps the target `Send` left with
`Next` set to `now + 21600` (the `int64` sum, exact for every `now` up to
`math.MaxInt64 - 21600`) when `Send` returned nil and to the old `t.Next` when it failed;
if `t.Next ≥ now` (equal included) nothing is sent and `t` is unchanged. `target.Store` is
called, with the targets of the pass, if and only if some send returned nil; the file holds
those targets when the write succeeds, is what the failed write left otherwise, and is
untouched when `Store` is not called. -/
theorem C13_scheduler_rule (P : Prims) (signer : Option P.RsaPrivateKey) (now : I64)
    (env : SendEnv) (fs : FileSys) (file : List Target) :
    (∀ (pre : List Target) (t : Target) (post : List Target), file = pre ++ t :: post →
      ∃ (before after : List Checked) (c : Checked),
        (scanPass P signer now env fs file false).checked = before ++ c :: after ∧
        before.length = pre.length ∧ after.length = post.length ∧
        (t.Next < now →
          c.sent = some (t.Send P (envAfter P signer now env pre) signer).err ∧
          c.env = (t.Send P (envAfter P signer now env pre) signer).env ∧
          c.t = { (t.Send P (envAfter P signer now env pre) signer).t with
                  Next := if (t.Send P (envAfter P signer now env pre) signer).err = none
                    then now + delaySeconds else t.Next }) ∧
        (¬ t.Next < now →
          c.sent = none ∧ c.env = envAfter P signer now env pre ∧ c.t = t)) ∧
    ((scanPass P signer now env fs file false).stored.isSome = true ↔
      ∃ (pre : List Target) (t : Target) (post : List Target), file = pre ++ t :: post ∧
        t.Next < now ∧ (t.Send P (envAfter P signer now env pre) signer).err = none) ∧
    (∀ ts, (scanPass P signer now env fs file false).stored = some ts →
      ts = (scanPass P signer now env fs file false).checked.map Checked.t ∧
      (scanPass P signer now env fs file false).file = (Store fs file ts).2 ∧
      (fs.fail = none → (scanPass P signer now env fs file false).file = ts)) ∧
    ((scanPass P signer now env fs file false).stored = none →
      (scanPass P signer now env fs file false).file = file) ∧
    (scanPass P signer now env fs file false).targetUpdate = false ∧
    (now.val ≤ 9223372036854754207 → (now + delaySeconds).val = now.val + 21600) := by
  have hchecked : (scanPass P signer now env fs file false).checked =
      (scanTargets P signer now env file false).1 := by
    unfold scanPass; dsimp only; split <;> rfl
  have hflag : (scanPass P signer now env fs file false).targetUpdate = false := by
    unfold scanPass; dsimp only; split
    · rfl
    · rename_i hf; simpa using hf
  have hstored : (scanPass P signer now env fs file false).stored =
      if (scanTargets P signer now env file false).2.1 = true then
        some ((scanTargets P signer now env file false).1.map Checked.t)
      else none := by
    unfold scanPass; dsimp only; split <;> rfl
  have hfile : (scanPass P signer now env fs file false).file =
      if (scanTargets P signer now env file false).2.1 = true then
        (Store fs file ((scanTargets P signer now env file false).1.map Checked.t)).2
      else file := by
    unfold scanPass; dsimp only; split <;> rfl
  have hiff := scanTargets_flag_iff P signer now env file false
  refine ⟨?_, ?_, ?_, ?_, hflag, delaySeconds_val now⟩
  · intro pre t post hsplit
    obtain ⟨after, h1, h2, h3⟩ := scanTargets_split P signer now env pre t post false
    refine ⟨_, after, passEntry P signer now (envAfter P signer now env pre) t,
      by rw [hchecked, hsplit, h1], h3, h2, ?_, ?_⟩
    · intro hlt
      simp only [passEntry, hlt, if_true, and_self]
    · intro hlt
      simp only [passEntry, hlt, if_false, and_self]
  · have hiff' := hiff.trans
      ⟨fun h => h.resolve_left (by simp), fun h => Or.inr h⟩
    rw [hstored, ← hiff']
    by_cases hf : (scanTargets P signer now env file false).2.1 = true
    · rw [if_pos hf]; simp only [Option.isSome_some, hf]
    · rw [if_neg hf]; simp only [Option.isSome_none, hf]
  · intro ts hts
    rw [hstored] at hts
    rw [hchecked, hfile]
    by_cases hf : (scanTargets P signer now env file false).2.1 = true
    · rw [if_pos hf] at hts ⊢
      simp only [Option.some.injEq] at hts
      subst hts
      refine ⟨rfl, rfl, ?_⟩
      intro hok
      simp only [Store, hok]
    · rw [if_neg hf] at hts
      cases hts
  · intro hnone
    rw [hstored] at hnone
    rw [hfile]
    by_cases hf : (scanTargets P signer now env file false).2.1 = true
    · rw [if_pos hf] at hnone
      cases hnone
    · rw [if_neg hf]

/-! ## `Decrypt` on arbitrary input -/

theorem Decrypt_eq_openAndVerify (P : Prims) (ct priv : List Byte)
    (signer : Option P.RsaPublicKey) (h : ¬ ct.length < 32 + nonceSize + boxOverhead) :
    Decrypt P ct (some priv) signer =
      openAndVerify P (copyArr 32 (ct.take 32)) (copyArr nonceSize (ct.drop 32))
        (copyArr 32 priv) (ct.drop msgStart) signer := by
  simp only [Decrypt, h, if_false, openAndVerify]

/-- The bounds-checked `Decrypt` never takes a panic branch: it is `Decrypt`. -/
theorem DecryptChecked_eq (P : Prims) (ct : List Byte) (priv : Option (List Byte))
    (signer : Option P.RsaPublicKey) :
    DecryptChecked P ct priv signer = some (Decrypt P ct priv signer) := by
  cases priv with
  | none => rfl
  | some priv =>
    by_cases h : ct.length < 32 + nonceSize + boxOverhead
    · simp only [DecryptChecked, Decrypt, h, if_true]
    · have h32 : 32 ≤ ct.length := by omega
      have h56 : msgStart ≤ ct.length := by
        simp only [msgStart, nonceSize, boxOverhead] at h ⊢; omega
      rw [Decrypt_eq_openAndVerify P ct priv signer h]
      simp only [DecryptChecked, h, if_false, sliceTo, sliceFrom, h32, h56, if_true]

/-- The three pieces `Decrypt` cuts out of a ciphertext of at least 72 bytes. -/
theorem Decrypt_slices (ct : List Byte) (h : 72 ≤ ct.length) :
    sliceTo ct 32 = some (ct.take 32) ∧ (ct.take 32).length = 32 ∧
    sliceFrom ct 32 = some (ct.drop 32) ∧
    (copyArr nonceSize (ct.drop 32)).val = (ct.drop 32).take 24 ∧
    sliceFrom ct msgStart = some (ct.drop 56) ∧
    boxOverhead ≤ (ct.drop 56).length ∧
    ct = ct.take 32 ++ (ct.drop 32).take 24 ++ ct.drop 56 := by
  have h32 : 32 ≤ ct.length := by omega
  have h56 : 56 ≤ ct.length := by omega
  refine ⟨by simp only [sliceTo, h32, if_true], by rw [List.length_take]; omega,
    by simp only [sliceFrom, h32, if_true], ?_,
    by simp only [sliceFrom, msgStart, nonceSize, h56, if_true], ?_, ?_⟩
  · have hz : 24 - (ct.drop 32).length = 0 := by
      rw [List.length_drop]; omega
    simp only [copyArr, nonceSize, hz, List.replicate_zero, List.append_nil]
  · rw [List.length_drop]; simp only [boxOverhead]; omega
  · have h1 : (ct.drop 32).take 24 ++ ct.drop 56 = ct.drop 32 := by
      have h2 : ct.drop 56 = (ct.drop 32).drop 24 := by rw [List.drop_drop]
      rw [h2, List.take_append_drop]
    rw [List.append_assoc, h1, List.take_append_drop]

/-- C14. `Decrypt` is safe on arbitrary input: on a byte string shorter than 72 bytes, with
a non-nil private key, it returns the invalid-box-size error whatever the primitives are
(the box is not opened); on a byte string of at least 72 bytes the three slices it takes,
`[0,32)` for the ephemeral key, `[32,56)` for the nonce and `[56,end)` for the sealed box,
are within bounds and make up the input; and with Go's bounds check on every slice
expression `Decrypt` never panics: the checked function equals it on every input. -/
theorem C14_decrypt_bounds (P : Prims) :
    (∀ (ct priv : List Byte) (signer : Option P.RsaPublicKey), ct.length < 72 →
      Decrypt P ct (some priv) signer = .error .invalidBoxSize ∧
      DecryptChecked P ct (some priv) signer = some (.error .invalidBoxSize)) ∧
    (∀ ct : List Byte, 72 ≤ ct.length →
      sliceTo ct 32 = some (ct.take 32) ∧ (ct.take 32).length = 32 ∧
      sliceFrom ct 32 = some (ct.drop 32) ∧
      (copyArr nonceSize (ct.drop 32)).val = (ct.drop 32).take 24 ∧
      sliceFrom ct msgStart = some (ct.drop 56) ∧
      boxOverhead ≤ (ct.drop 56).length ∧
      ct = ct.take 32 ++ (ct.drop 32).take 24 ++ ct.drop 56) ∧
    (∀ (ct : List Byte) (priv : Option (List Byte)) (signer : Option P.RsaPublicKey),
      DecryptChecked P ct priv signer = some (Decrypt P ct priv signer)) := by
  refine ⟨?_, Decrypt_slices, DecryptChecked_eq P⟩
  intro ct priv signer h
  have h' : ct.length < 32 + nonceSize + boxOverhead := by
    simp only [nonceSize, boxOverhead]; omega
  have hd : Decrypt P ct (some priv) signer = .error .invalidBoxSize := by
    simp only [Decrypt, h', if_true]
  exact ⟨hd, by rw [DecryptChecked_eq, hd]⟩

/-! ## Missing key material -/

/-- C15. Missing key material is rejected: with a nil peer public key `SerialiseWire` and
`Encrypt` return an error and no ciphertext (and draw no randomness); with a nil private key
`Decrypt` and `ParsePacket` return an error and no message or packet; and
`ParseAndWritePacket` with a nil private key returns that error with the input counter and
leaves the writer alone. -/
theorem C15_missing_keys (P : Prims) :
    (∀ (rnd : Reader) (p : Packet) (signer : Option P.RsaPrivateKey),
      ∃ err, SerialiseWire P rnd p none signer = (.error err, rnd)) ∧
    (∀ (rnd : Reader) (m : List Byte) (signer : Option P.RsaPrivateKey),
      Encrypt P rnd m none signer = (.error .noPublicKey, rnd)) ∧
    (∀ (ct : List Byte) (signer : Option P.RsaPublicKey),
      Decrypt P ct none signer = .error .noPrivateKey) ∧
    (∀ (input : List Byte) (signer : Option P.RsaPublicKey),
      ParsePacket P input none signer = .error .noPrivateKey) ∧
    (∀ (now : I64) (input : List Byte) (signer : Option P.RsaPublicKey) (drift counter : I64)
        (w : Option Writer),
      ParseAndWritePacket P now input none signer drift counter w =
        ((counter, some .noPrivateKey), w)) := by
  have hparse : ∀ (input : List Byte) (signer : Option P.RsaPublicKey),
      ParsePacket P input none signer = .error .noPrivateKey := by
    intro input signer
    simp only [ParsePacket, Decrypt]
  refine ⟨?_, fun _ _ _ => rfl, fun _ _ => rfl, hparse, ?_⟩
  · intro rnd p signer
    unfold SerialiseWire
    split
    · exact ⟨_, rfl⟩
    · exact ⟨_, rfl⟩
  · intro now input signer drift counter w
    exact ParseAndWritePacket_parse_error P now input none signer drift counter w _
      (hparse input signer)

/-! ## The frame: header and body -/

theorem Uint16_PutUint16 (v : Nat) (h : v < 65536) : Uint16 (PutUint16 v) = v := by
  show (v / 256 % 256) * 256 + v % 256 = v
  omega

theorem Uint16_frame (n : Nat) : Uint16 (PutUint16 (uint16 n)) = n % 65536 :=
  Uint16_PutUint16 (n % 65536) (Nat.mod_lt _ (by decide))

/-- A body `Send` writes goes out behind the header computed from its length. -/
theorem Send_body (P : Prims) (env : SendEnv) (t : Target) (signer : Option P.RsaPrivateKey)
    (body : List Byte) (h : (t.Send P env signer).body = some body) :
    (t.Send P env signer).header = some (PutUint16 (uint16 body.length)) := by
  by_cases hlen : ChunkSize ≤ env.prng.data.length
  · rw [Send_full P env t signer hlen] at h ⊢
    dsimp only at h ⊢
    rcases hs : SerialiseWire P env.rnd (sendPacket env t) t.Public signer with ⟨res, rnd'⟩
    rw [hs] at h
    cases res with
    | error err => simp at h
    | ok out =>
      dsimp only at h ⊢
      cases hdial : env.dial t.Address with
      | error e => rw [hdial] at h; simp at h
      | ok conn =>
        rw [hdial] at h
        dsimp only at h ⊢
        cases hw1 : (conn.Write (PutUint16 (uint16 out.length)).val).2.2 with
        | some e => rw [hw1] at h; simp at h
        | none =>
          rw [hw1] at h
          dsimp only at h ⊢
          cases hw2 : ((conn.Write (PutUint16 (uint16 out.length)).val).1.Write out).2.2 with
          | some e =>
            rw [hw2] at h
            simp only [Option.some.injEq] at h
            rw [← h]
          | none =>
            rw [hw2] at h
            simp only [Option.some.injEq] at h
            rw [← h]
  · have hs := NewPacket_short env.clock t.Counter env.prng (by omega)
    unfold Target.Send at h
    rw [hs] at h
    simp at h

/-- The sink's `receive` on a connection that delivers a frame in one piece: it reads the
header, then exactly the body, and hands the body to `ParseAndWritePacket`. -/
theorem receive_frame (P : Prims) (cfg : SinkConfig P) (now : I64) (fail : Option ExtErr)
    (state : SinkState) (hd : Arr 2) (body : List Byte) (h : Uint16 hd = body.length) :
    receive P cfg now { segments := [hd.val ++ body], fail := fail } state =
      ({ Counter := (ParseAndWritePacket P now body cfg.Private cfg.Signer cfg.Drift
            state.Counter state.PRNG).1.1,
         PRNG := (ParseAndWritePacket P now body cfg.Private cfg.Signer cfg.Drift
            state.Counter state.PRNG).2 },
       (ParseAndWritePacket P now body cfg.Private cfg.Signer cfg.Drift
            state.Counter state.PRNG).1.2) := by
  have hl := hd.property
  have htake : (hd.val ++ body).take 2 = hd.val := List.take_left' hl
  have hrest : ({ segments := if (hd.val ++ body).length ≤ 2 then []
        else (hd.val ++ body).drop 2 :: [], fail := fail } : Conn).toReader.data = body := by
    by_cases hb : (hd.val ++ body).length ≤ 2
    · have hnil : body = [] := by
        rw [List.length_append, hl] at hb
        exact List.eq_nil_of_length_eq_zero (by omega)
      simp [Conn.toReader, hb, hnil]
    · have hne : body ≠ [] := by
        intro hnil
        rw [hnil, List.append_nil, hl] at hb
        omega
      simp [Conn.toReader, List.drop_left' hl, hne]
  unfold receive
  simp only [Conn.Read, htake, copyArr_val_self, h]
  rw [ReadFull_ok _ _ (by rw [hrest])]
  simp only [hrest, List.take_length]

theorem Ref.encBytes_length (b : List Byte) : (Ref.encBytes b).length = 2 * b.length + 1 := by
  induction b with
  | nil => rfl
  | cons x rest ih => simp only [Ref.encBytes, List.length_cons, ih]; omega

theorem Ref.wide_isOk (p : Packet) :
    ∃ out, (SerialiseWire Ref.widePrims Ref.rand p (some Ref.sinkKey)
      (some Ref.signerKey)).1 = .ok out := by
  simp [SerialiseWire, Encrypt, Ref.widePrims, Ref.prims, newNonce, RandBytes, ReadFull,
    Ref.rand, nonceSize]

/-- Under the long-signature key every envelope is longer than a 16-bit header can say. -/
theorem Ref.wide_length (p : Packet) (out : List Byte)
    (h : (SerialiseWire Ref.widePrims Ref.rand p (some Ref.sinkKey)
      (some Ref.signerKey)).1 = .ok out) : 65536 ≤ out.length := by
  obtain ⟨m, _, henc⟩ := SerialiseWire_ok_shape Ref.widePrims Ref.rand p _ _ out h
  obtain ⟨sig, sm, epub, epriv, nonce, r1, r2, hsig, hsm, _, hct⟩ :=
    Encrypt_ok_shape Ref.widePrims Ref.rand m Ref.sinkKey (some Ref.signerKey) out henc
  obtain ⟨r0, hsig⟩ := hsig
  simp only [Ref.widePrims, Prod.mk.injEq, Except.ok.injEq] at hsig
  simp only [Ref.widePrims, Ref.prims, Except.ok.injEq] at hsm
  have hpad : Ref.padding.length = 65536 := by
    simp only [Ref.padding, List.length_replicate]
  have hlen : 65536 ≤ sig.length := by
    rw [← hsig.1]
    simp only [List.length_cons, List.length_append, hpad]
    omega
  rw [hct, ← hsm]
  simp only [Ref.widePrims, Ref.prims, List.length_append, List.length_replicate,
    Ref.encBytes_length]
  omega

theorem Ref.reachable_length : ChunkSize ≤ Ref.reachable.prng.data.length :=
  Ref.fullReader_length

/-- `Send` does not check the length of the envelope: with a signing key whose signatures
are longer than 65535 bytes the envelope is longer than 65535 bytes, `Send` succeeds, and the
header it wrote, read the way the sink reads it, is not the length of the body. -/
theorem Ref.wide_header_mismatch :
    ∃ (hd : Arr 2) (body : List Byte),
      (Ref.target30.Send Ref.widePrims Ref.reachable (some Ref.signerKey)).err = none ∧
      (Ref.target30.Send Ref.widePrims Ref.reachable (some Ref.signerKey)).header = some hd ∧
      (Ref.target30.Send Ref.widePrims Ref.reachable (some Ref.signerKey)).body = some body ∧
      Uint16 hd ≠ body.length := by
  obtain ⟨out, hout⟩ := Ref.wide_isOk (sendPacket Ref.reachable Ref.target30)
  have hs := Send_success Ref.widePrims Ref.reachable Ref.target30 (some Ref.signerKey) out
    Ref.buffer Ref.reachable_length hout rfl rfl rfl
  refine ⟨_, out, hs.1, hs.2.2.1, hs.2.2.2, ?_⟩
  have hlen := Ref.wide_length _ out hout
  rw [Uint16_frame]
  have hlt : out.length % 65536 < 65536 := Nat.mod_lt _ (by decide)
  omega

/-- What reaches the connection when `Send` writes a body: the dial succeeded, the header
`PutUint16(uint16(len(body)))` was written first and without error, the body second, and
`Send` returns the error of the body write. -/
theorem Send_transmit (P : Prims) (env : SendEnv) (t : Target)
    (signer : Option P.RsaPrivateKey) (body : List Byte)
    (h : (t.Send P env signer).body = some body) :
    ∃ conn : Writer,
      env.dial t.Address = .ok conn ∧
      (conn.Write (PutUint16 (uint16 body.length)).val).2.2 = none ∧
      (t.Send P env signer).conn =
        some ((conn.Write (PutUint16 (uint16 body.length)).val).1.Write body).1 ∧
      (t.Send P env signer).err =
        ((conn.Write (PutUint16 (uint16 body.length)).val).1.Write body).2.2.map Err.ext := by
  by_cases hlen : ChunkSize ≤ env.prng.data.length
  · rw [Send_full P env t signer hlen] at h ⊢
    dsimp only at h ⊢
    rcases hs : SerialiseWire P env.rnd (sendPacket env t) t.Public signer with ⟨res, rnd'⟩
    rw [hs] at h
    cases res with
    | error err => simp at h
    | ok out =>
      dsimp only at h ⊢
      cases hdial : env.dial t.Address with
      | error e => rw [hdial] at h; simp at h
      | ok conn =>
        rw [hdial] at h
        dsimp only at h ⊢
        cases hw1 : (conn.Write (PutUint16 (uint16 out.length)).val).2.2 with
        | some e => rw [hw1] at h; simp at h
        | none =>
          rw [hw1] at h
          dsimp only at h ⊢
          cases hw2 : ((conn.Write (PutUint16 (uint16 out.length)).val).1.Write out).2.2 with
          | some e =>
            rw [hw2] at h
            simp only [Option.some.injEq] at h
            subst h
            exact ⟨conn, rfl, hw1, rfl, by rw [hw2]; rfl⟩
          | none =>
            rw [hw2] at h
            simp only [Option.some.injEq] at h
            subst h
            exact ⟨conn, rfl, hw1, rfl, by rw [hw2]; rfl⟩
  · have hs := NewPacket_short env.clock t.Counter env.prng (by omega)
    unfold Target.Send at h
    rw [hs] at h
    simp at h

/-- A write that returns no error on a writer that keeps the `io.Writer` contract (a short
write comes with an error) appends the whole argument. -/
theorem Write_whole (w : Writer) (p : List Byte)
    (hcontract : ∀ c q, (w.respond c q).2 = none → q.length ≤ (w.respond c q).1)
    (h : (w.Write p).2.2 = none) :
    (w.Write p).1.contents = w.contents ++ p ∧ (w.Write p).1.calls = w.calls + 1 ∧
    (w.Write p).1.respond = w.respond := by
  have hn := hcontract w.contents p h
  refine ⟨?_, rfl, rfl⟩
  show w.contents ++ p.take (w.respond w.contents p).1 = w.contents ++ p
  rw [List.take_of_length_le hn]

/-- The sink's `receive` on a connection that delivers a frame, and possibly more after it,
in any segmentation whose first segment holds at least the two header bytes: it reads the
header, then exactly the body, and hands the body to `ParseAndWritePacket`. -/
theorem receive_segmented (P : Prims) (cfg : SinkConfig P) (now : I64)
    (fail : Option ExtErr) (state : SinkState) (hd : Arr 2) (body more : List Byte)
    (s : List Byte) (rest : List (List Byte)) (h : Uint16 hd = body.length)
    (hs : 2 ≤ s.length) (hflat : (s :: rest).flatten = hd.val ++ body ++ more) :
    receive P cfg now { segments := s :: rest, fail := fail } state =
      ({ Counter := (ParseAndWritePacket P now body cfg.Private cfg.Signer cfg.Drift
            state.Counter state.PRNG).1.1,
         PRNG := (ParseAndWritePacket P now body cfg.Private cfg.Signer cfg.Drift
            state.Counter state.PRNG).2 },
       (ParseAndWritePacket P now body cfg.Private cfg.Signer cfg.Drift
            state.Counter state.PRNG).1.2) := by
  have hl := hd.property
  have hflat' : s ++ rest.flatten = hd.val ++ (body ++ more) := by
    rw [← List.append_assoc, ← hflat]; rfl
  have htake : s.take 2 = hd.val := by
    have h1 : (s ++ rest.flatten).take 2 = s.take 2 := List.take_append_of_le_length hs
    rw [← h1, hflat', List.take_left' hl]
  have hdrop : s.drop 2 ++ rest.flatten = body ++ more := by
    have h1 : (s ++ rest.flatten).drop 2 = s.drop 2 ++ rest.flatten :=
      List.drop_append_of_le_length hs
    rw [← h1, hflat', List.drop_left' hl]
  have hrest :
      ({ fail := fail, segments := if s.length ≤ 2 then rest else s.drop 2 :: rest } :
        Conn).toReader.data = body ++ more := by
    by_cases hb : s.length ≤ 2
    · have hnil : s.drop 2 = [] := List.drop_eq_nil_of_le hb
      rw [hnil, List.nil_append] at hdrop
      simp only [Conn.toReader, hb, if_true, hdrop]
    · simp only [Conn.toReader, hb, if_false]
      exact hdrop
  unfold receive
  simp only [Conn.Read, htake, copyArr_val_self, h]
  rw [ReadFull_ok _ _ (by rw [hrest, List.length_append]; omega)]
  simp only [hrest, List.take_left]

/-- The sink's `receive` when its one `Read` of the header returns a single byte `b0`: the
second header byte stays zero, the length taken is `256 * b0`, and that many of the bytes
that follow (the second header byte first) are handed to `ParseAndWritePacket`. -/
theorem receive_short_header (P : Prims) (cfg : SinkConfig P) (now : I64)
    (fail : Option ExtErr) (state : SinkState) (b0 : Byte) (rest : List (List Byte))
    (hlen : b0.toNat * 256 ≤ rest.flatten.length) :
    receive P cfg now { segments := [b0] :: rest, fail := fail } state =
      ({ Counter := (ParseAndWritePacket P now (rest.flatten.take (b0.toNat * 256))
            cfg.Private cfg.Signer cfg.Drift state.Counter state.PRNG).1.1,
         PRNG := (ParseAndWritePacket P now (rest.flatten.take (b0.toNat * 256))
            cfg.Private cfg.Signer cfg.Drift state.Counter state.PRNG).2 },
       (ParseAndWritePacket P now (rest.flatten.take (b0.toNat * 256))
            cfg.Private cfg.Signer cfg.Drift state.Counter state.PRNG).1.2) := by
  have hu : Uint16 (copyArr 2 [b0]) = b0.toNat * 256 := by
    show b0.toNat * 256 + (0 : Byte).toNat = b0.toNat * 256
    have h0 : (0 : Byte).toNat = 0 := rfl
    omega
  unfold receive
  simp only [Conn.Read, List.take, List.length_singleton, Nat.one_le_ofNat, if_true, hu]
  rw [ReadFull_ok _ _ (by simpa [Conn.toReader] using hlen)]
  rfl

/-! ### The frame of the executable instance, and a split header -/

/-- The envelope the executable instance makes: key, nonce, the 16-byte tag, and 1107 bytes
of encoded record. -/
theorem Ref.envelope_shape (p : Packet) :
    ∃ (epub : Arr 32) (nonce : Arr nonceSize) (sm : List Byte),
      Ref.envelope p (some Ref.signerKey) =
        epub.val ++ nonce.val ++ (List.replicate 16 0 ++ sm) ∧ sm.length = 1107 := by
  obtain ⟨m, hm, henc⟩ := SerialiseWire_ok_shape Ref.prims Ref.rand p _ _ _
    (Ref.SerialiseWire_envelope p (some Ref.signerKey))
  obtain ⟨sig, sm, epub, epriv, nonce, r1, r2, hsig, hsm, _, hct⟩ :=
    Encrypt_ok_shape Ref.prims Ref.rand m Ref.sinkKey (some Ref.signerKey) _ henc
  obtain ⟨r0, hsig⟩ := hsig
  simp only [Ref.prims, Prod.mk.injEq, Except.ok.injEq] at hsig
  simp only [Ref.prims, Except.ok.injEq] at hsm hm
  refine ⟨epub, nonce, sm, hct, ?_⟩
  have hmlen : m.length = 1040 := by
    rw [← hm]
    have ht : (Ref.encI64 p.Timestamp).length = 8 := Ref.encNat_length _ _
    have hc : (Ref.encI64 p.Counter).length = 8 := Ref.encNat_length _ _
    have hk : p.Chunk.val.length = 1024 := p.Chunk.property
    simp only [List.length_append, ht, hc, hk]
  have hsiglen : sig.length = 33 := by
    rw [← hsig.1]
    have hd : (copyArr 32 m).val.length = 32 := (copyArr 32 m).property
    simp only [List.length_cons, hd]
  rw [← hsm]
  simp only [List.length_append, Ref.encBytes_length, hsiglen, hmlen]

theorem Ref.frameBody_length : Ref.frameBody.length = 1179 := by
  obtain ⟨epub, nonce, sm, h, hsm⟩ := Ref.envelope_shape (sendPacket Ref.reachable Ref.target30)
  have he := epub.property
  have hn : nonce.val.length = 24 := nonce.property
  unfold Ref.frameBody
  rw [h]
  simp only [List.length_append, List.length_replicate, he, hn, hsm]

/-- In the executable instance an input whose byte 72 is zero decodes to a record with an
empty signature, so `ParsePacket` refuses it as unsigned. -/
theorem Ref.ParsePacket_zero_tag (input tl priv : List Byte) (v : Option Byte)
    (h : input.drop 72 = 0 :: tl) :
    ParsePacket Ref.prims input (some priv) v = .error .ErrUnsignedPacket := by
  have hlen : 73 ≤ input.length := by
    by_contra hc
    have hnil : input.drop 72 = [] := List.drop_eq_nil_of_le (by omega)
    rw [hnil] at h
    cases h
  have hbox : (input.drop msgStart).drop 16 = 0 :: tl := by
    rw [List.drop_drop]
    exact h
  have hge : 16 ≤ (input.drop msgStart).length := by
    rw [List.length_drop]
    show 16 ≤ input.length - 56
    omega
  have hlt : ¬ input.length < 32 + nonceSize + boxOverhead := by
    show ¬ input.length < 72
    omega
  unfold ParsePacket Decrypt
  simp only [hlt, if_false, Ref.prims, hge, if_true, hbox, Ref.decBytes_cons]
  simp

/-- The frame body moved one byte to the right has the last byte of the box tag, a zero, at
position 72. -/
theorem Ref.frameBody_shifted (x : Byte) :
    ∃ tl : List Byte, (x :: Ref.frameBody.take 1023).drop 72 = 0 :: tl := by
  obtain ⟨epub, nonce, sm, h, _⟩ := Ref.envelope_shape (sendPacket Ref.reachable Ref.target30)
  have he := epub.property
  have hn : nonce.val.length = 24 := nonce.property
  have hsplit : Ref.frameBody =
      (epub.val ++ nonce.val ++ List.replicate 15 0) ++ (0 :: sm) := by
    unfold Ref.frameBody
    rw [h]
    have h16 : List.replicate 16 (0 : Byte) = List.replicate 15 0 ++ [0] := by decide
    rw [h16]
    simp only [List.append_assoc, List.singleton_append]
  have hpre : (epub.val ++ nonce.val ++ List.replicate 15 (0 : Byte)).length = 71 := by
    simp only [List.length_append, List.length_replicate, he, hn]
  refine ⟨sm.take 951, ?_⟩
  show (Ref.frameBody.take 1023).drop 71 = 0 :: sm.take 951
  rw [List.drop_take, hsplit, List.drop_left' hpre]
  rfl

/-- The header and the body `Send` produces for `target30`. -/
theorem Ref.send_frame :
    (Ref.target30.Send Ref.prims Ref.reachable (some Ref.signerKey)).err = none ∧
    (Ref.target30.Send Ref.prims Ref.reachable (some Ref.signerKey)).header =
      some Ref.frameHeader ∧
    (Ref.target30.Send Ref.prims Ref.reachable (some Ref.signerKey)).body =
      some Ref.frameBody := by
  have hs := Send_success Ref.prims Ref.reachable Ref.target30 (some Ref.signerKey)
    Ref.frameBody Ref.buffer Ref.reachable_length (Ref.SerialiseWire_envelope _ _) rfl rfl rfl
  rw [Ref.frameBody_length] at hs
  exact ⟨hs.1, hs.2.2.1, hs.2.2.2⟩

/-- After a `Send` that returned nil, a connection that keeps the `io.Writer` contract holds
the header and then the body, written in two calls. -/
theorem Send_contents (P : Prims) (env : SendEnv) (t : Target)
    (signer : Option P.RsaPrivateKey) (body : List Byte)
    (h : (t.Send P env signer).body = some body)
    (herr : (t.Send P env signer).err = none) :
    ∃ (conn w : Writer),
      env.dial t.Address = .ok conn ∧ (t.Send P env signer).conn = some w ∧
      ((∀ c q, (conn.respond c q).2 = none → q.length ≤ (conn.respond c q).1) →
        w.contents = conn.contents ++ (PutUint16 (uint16 body.length)).val ++ body ∧
        w.calls = conn.calls + 2) := by
  obtain ⟨conn, hdial, hw1, hconn, he⟩ := Send_transmit P env t signer body h
  refine ⟨conn, _, hdial, hconn, ?_⟩
  intro hcontract
  have hw2 : ((conn.Write (PutUint16 (uint16 body.length)).val).1.Write body).2.2 = none := by
    rw [herr] at he
    exact Option.map_eq_none.mp he.symm
  obtain ⟨hc1, hn1, hr1⟩ := Write_whole conn _ hcontract hw1
  obtain ⟨hc2, hn2, _⟩ := Write_whole (conn.Write (PutUint16 (uint16 body.length)).val).1 body
    (by rw [hr1]; exact hcontract) hw2
  exact ⟨by rw [hc2, hc1], by rw [hn2, hn1]⟩

/-- A frame that arrives in one piece, parses, and is fresh: `receive` takes the packet's
counter and writes the chunk. -/
theorem receive_frame_fresh (P : Prims) (cfg : SinkConfig P) (now : I64)
    (fail : Option ExtErr) (state : SinkState) (hd : Arr 2) (body : List Byte) (w : Writer)
    (p : Packet) (h : Uint16 hd = body.length) (hw : state.PRNG = some w)
    (hp : ParsePacket P body cfg.Private cfg.Signer = .ok p)
    (hd1 : withinDrift now cfg.Drift p.Timestamp) (hc : state.Counter < p.Counter) :
    receive P cfg now { segments := [hd.val ++ body], fail := fail } state =
      ({ Counter := p.Counter, PRNG := some (w.Write p.Chunk.val).1 },
       (w.Write p.Chunk.val).2.2.map Err.ext) := by
  rw [receive_frame P cfg now fail state hd body h, hw,
    ParseAndWritePacket_fresh P now body cfg.Private cfg.Signer cfg.Drift state.Counter w p
      hp hd1 hc]

/-- A header split after its first byte, and a packet that does not parse at the length
`receive` then takes: the state is left as it was and the parse error is the result. -/
theorem receive_short_header_refused (P : Prims) (cfg : SinkConfig P) (now : I64)
    (fail : Option ExtErr) (state : SinkState) (b0 : Byte) (rest : List (List Byte))
    (err : Err) (hlen : b0.toNat * 256 ≤ rest.flatten.length)
    (hp : ParsePacket P (rest.flatten.take (b0.toNat * 256)) cfg.Private cfg.Signer =
      .error err) :
    receive P cfg now { segments := [b0] :: rest, fail := fail } state = (state, some err) := by
  rw [receive_short_header P cfg now fail state b0 rest hlen,
    ParseAndWritePacket_parse_error P now _ cfg.Private cfg.Signer cfg.Drift state.Counter
      state.PRNG err hp]

/-- The bytes `receive` takes for the packet when the header bytes 4 and `x` arrive apart. -/
theorem short_take (x : Byte) (l : List Byte) :
    ([x :: l].flatten).take ((4 : Byte).toNat * 256) = x :: l.take 1023 := by
  have h4 : (4 : Byte).toNat * 256 = 1023 + 1 := rfl
  rw [h4]
  simp only [List.flatten, List.append_nil, List.take_succ_cons]

/-- A header and a body in two segments, the first holding one byte, are the same bytes. -/
theorem split_flatten (hd body : List Byte) :
    [hd.take 1, hd.drop 1 ++ body].flatten = hd ++ body := by
  simp only [List.flatten, List.append_nil, ← List.append_assoc, List.take_append_drop]

/-- C16 (as stated, fails). `Send` to `target30` succeeds and puts on the wire the header
for 1179 bytes followed by the 1179-byte envelope, so the header equals `len(body)`; a sink
that gets these bytes in one piece accepts the packet and moves its counter to 31. When
the same bytes arrive with the first header byte alone in the first segment, `receive` takes
its one `Read` for the whole header, computes the length 1024, reads the second header byte
and the first 1023 bytes of the envelope as the packet, and refuses it: the sink does not
read the whole envelope and the packet is lost. -/
theorem C16_counterexample :
    (Ref.target30.Send Ref.prims Ref.reachable (some Ref.signerKey)).err = none ∧
    (Ref.target30.Send Ref.prims Ref.reachable (some Ref.signerKey)).header =
      some Ref.frameHeader ∧
    (Ref.target30.Send Ref.prims Ref.reachable (some Ref.signerKey)).body =
      some Ref.frameBody ∧
    (∃ w : Writer,
      (Ref.target30.Send Ref.prims Ref.reachable (some Ref.signerKey)).conn = some w ∧
      w.contents = Ref.frameHeader.val ++ Ref.frameBody) ∧
    Uint16 Ref.frameHeader = Ref.frameBody.length ∧
    Ref.wholeFrame.segments.flatten = Ref.frameHeader.val ++ Ref.frameBody ∧
    Ref.splitFrame.segments.flatten = Ref.frameHeader.val ++ Ref.frameBody ∧
    (∃ w : Writer,
      receive Ref.prims Ref.sinkConfig (I64.wrap 1700000000) Ref.wholeFrame Ref.sinkState =
        ({ Counter := I64.wrap 31, PRNG := some w }, none)) ∧
    receive Ref.prims Ref.sinkConfig (I64.wrap 1700000000) Ref.splitFrame Ref.sinkState =
      (Ref.sinkState, some .ErrUnsignedPacket) := by
  have hlen := Ref.frameBody_length
  have hfh : PutUint16 (uint16 1179) = Ref.frameHeader := rfl
  have hhd : Uint16 Ref.frameHeader = Ref.frameBody.length := by
    rw [hlen]; rfl
  have htk : Ref.frameHeader.val.take 1 = [4] := rfl
  have hdr : Ref.frameHeader.val.drop 1 = [155] := rfl
  have hwf : Ref.wholeFrame =
      { segments := [Ref.frameHeader.val ++ Ref.frameBody], fail := none } := rfl
  have hsf : Ref.splitFrame =
      { segments := [Ref.frameHeader.val.take 1, Ref.frameHeader.val.drop 1 ++ Ref.frameBody],
        fail := none } := rfl
  obtain ⟨herr, hheader, hbody⟩ := Ref.send_frame
  obtain ⟨conn, w, hdial, hconn, hcont⟩ := Send_contents Ref.prims Ref.reachable Ref.target30
    (some Ref.signerKey) Ref.frameBody hbody herr
  have hbuf : conn = Ref.buffer := by
    have hd : Ref.reachable.dial Ref.target30.Address = .ok Ref.buffer := rfl
    rw [hd] at hdial
    exact (Except.ok.inj hdial).symm
  subst hbuf
  have hcontents := (hcont (fun c q _ => Nat.le_refl q.length)).1
  have hbc : Ref.buffer.contents = [] := rfl
  rw [hlen, hfh, hbc, List.nil_append] at hcontents
  have hctr : (sendPacket Ref.reachable Ref.target30).Counter = I64.wrap 31 := by decide
  have hwhole := receive_frame_fresh Ref.prims Ref.sinkConfig (I64.wrap 1700000000) none
    Ref.sinkState Ref.frameHeader Ref.frameBody Ref.buffer
    (sendPacket Ref.reachable Ref.target30) hhd rfl (Ref.ParsePacket_envelope _)
    (by decide) (by decide)
  have hno : (Ref.buffer.Write (sendPacket Ref.reachable Ref.target30).Chunk.val).2.2 =
      none := by
    show (Ref.buffer.respond Ref.buffer.contents
      (sendPacket Ref.reachable Ref.target30).Chunk.val).2 = none
    rw [Ref.buffer_accepts]
  rw [hctr, hno] at hwhole
  obtain ⟨tl, htl⟩ := Ref.frameBody_shifted 155
  have hsplit := receive_short_header_refused Ref.prims Ref.sinkConfig (I64.wrap 1700000000)
    none Ref.sinkState 4 [155 :: Ref.frameBody] .ErrUnsignedPacket
    (by
      rw [List.flatten, List.flatten, List.append_nil, List.length_cons, hlen]
      decide)
    (by
      rw [short_take]
      exact Ref.ParsePacket_zero_tag _ tl Ref.sinkKey (some Ref.signerKey) htl)
  refine ⟨herr, hheader, hbody, ⟨w, hconn, hcontents⟩, hhd, ?_, ?_,
    ⟨(Ref.buffer.Write (sendPacket Ref.reachable Ref.target30).Chunk.val).1, ?_⟩, ?_⟩
  · rw [hwf]
    simp only [List.flatten, List.append_nil]
  · rw [hsf]
    exact split_flatten _ _
  · rw [hwf]
    exact hwhole
  · rw [hsf, htk, hdr]
    exact hsplit

/-- C16 (amended). For every envelope body that `Send` transmits: the dial succeeded, `Send`
wrote the two header bytes to the connection first and without error and the body second,
and returns the error of the body write; when it returns nil and the connection keeps the
`io.Writer` contract, the connection holds the header followed by the whole body. The
header, read as a big-endian unsigned 16-bit integer the way the sink's `receive` reads it,
equals `len(body)` modulo 65536 (`Send` does not check the length), hence `len(body)` for
every body of at most 65535 bytes. For such a body, a `receive` whose first `Read` returns
at least the two header bytes reads exactly the whole envelope and hands it to
`ParseAndWritePacket`, however the frame is split across reads and whatever follows it.
`receive` reads the header with a single `Read`: when that `Read` returns only the first
header byte `b0`, it takes the length `256 * b0` and hands that many of the bytes that
follow (the second header byte first) to `ParseAndWritePacket`. -/
theorem C16_frame_length (P : Prims) (env : SendEnv) (t : Target)
    (signer : Option P.RsaPrivateKey) (body : List Byte)
    (h : (t.Send P env signer).body = some body) :
    ∃ (conn : Writer) (hd : Arr 2),
      env.dial t.Address = .ok conn ∧
      (t.Send P env signer).header = some hd ∧
      (conn.Write hd.val).2.2 = none ∧
      (t.Send P env signer).conn = some ((conn.Write hd.val).1.Write body).1 ∧
      (t.Send P env signer).err = ((conn.Write hd.val).1.Write body).2.2.map Err.ext ∧
      ((t.Send P env signer).err = none →
        (∀ c q, (conn.respond c q).2 = none → q.length ≤ (conn.respond c q).1) →
        ((conn.Write hd.val).1.Write body).1.contents = conn.contents ++ hd.val ++ body ∧
        ((conn.Write hd.val).1.Write body).1.calls = conn.calls + 2) ∧
      Uint16 hd = body.length % 65536 ∧
      (body.length ≤ 65535 →
        Uint16 hd = body.length ∧
        ∀ (cfg : SinkConfig P) (now : I64) (fail : Option ExtErr) (state : SinkState)
          (s : List Byte) (rest : List (List Byte)) (more : List Byte),
          2 ≤ s.length → (s :: rest).flatten = hd.val ++ body ++ more →
          receive P cfg now { segments := s :: rest, fail := fail } state =
            ({ Counter := (ParseAndWritePacket P now body cfg.Private cfg.Signer cfg.Drift
                  state.Counter state.PRNG).1.1,
               PRNG := (ParseAndWritePacket P now body cfg.Private cfg.Signer cfg.Drift
                  state.Counter state.PRNG).2 },
             (ParseAndWritePacket P now body cfg.Private cfg.Signer cfg.Drift
                  state.Counter state.PRNG).1.2)) ∧
      (∀ (cfg : SinkConfig P) (now : I64) (fail : Option ExtErr) (state : SinkState)
          (b0 : Byte) (rest : List (List Byte)) (more : List Byte),
          hd.val.take 1 = [b0] → rest.flatten = hd.val.drop 1 ++ body ++ more →
          b0.toNat * 256 ≤ rest.flatten.length →
          receive P cfg now { segments := hd.val.take 1 :: rest, fail := fail } state =
            ({ Counter := (ParseAndWritePacket P now
                  ((hd.val.drop 1 ++ body ++ more).take (b0.toNat * 256))
                  cfg.Private cfg.Signer cfg.Drift state.Counter state.PRNG).1.1,
               PRNG := (ParseAndWritePacket P now
                  ((hd.val.drop 1 ++ body ++ more).take (b0.toNat * 256))
                  cfg.Private cfg.Signer cfg.Drift state.Counter state.PRNG).2 },
             (ParseAndWritePacket P now
                  ((hd.val.drop 1 ++ body ++ more).take (b0.toNat * 256))
                  cfg.Private cfg.Signer cfg.Drift state.Counter state.PRNG).1.2)) := by
  obtain ⟨conn, hdial, hw1, hconn, herr⟩ := Send_transmit P env t signer body h
  refine ⟨conn, PutUint16 (uint16 body.length), hdial, Send_body P env t signer body h, hw1,
    hconn, herr, ?_, Uint16_frame _, ?_, ?_⟩
  · intro hnil hcontract
    have hw2 :
        ((conn.Write (PutUint16 (uint16 body.length)).val).1.Write body).2.2 = none := by
      rw [hnil] at herr
      exact Option.map_eq_none.mp herr.symm
    obtain ⟨hc1, hn1, hr1⟩ := Write_whole conn _ hcontract hw1
    obtain ⟨hc2, hn2, _⟩ := Write_whole (conn.Write (PutUint16 (uint16 body.length)).val).1
      body (by rw [hr1]; exact hcontract) hw2
    exact ⟨by rw [hc2, hc1], by rw [hn2, hn1]⟩
  · intro hle
    have heq : Uint16 (PutUint16 (uint16 body.length)) = body.length := by
      rw [Uint16_frame]; omega
    exact ⟨heq, fun cfg now fail state s rest more hs hflat =>
      receive_segmented P cfg now fail state _ body more s rest heq hs hflat⟩
  · intro cfg now fail state b0 rest more hb0 hrest hlen
    rw [hb0, ← hrest]
    exact receive_short_header P cfg now fail state b0 rest hlen

theorem C16_frame_length_witness :
    (Ref.target30.Send Ref.prims Ref.reachable (some Ref.signerKey)).body =
      some Ref.frameBody ∧
    ∃ (conn : Writer) (hd : Arr 2),
      Ref.reachable.dial Ref.target30.Address = .ok conn ∧
      (Ref.target30.Send Ref.prims Ref.reachable (some Ref.signerKey)).header = some hd ∧
      (Ref.target30.Send Ref.prims Ref.reachable (some Ref.signerKey)).conn =
        some ((conn.Write hd.val).1.Write Ref.frameBody).1 ∧
      Uint16 hd = Ref.frameBody.length % 65536 :=
  ⟨Ref.send_frame.2.2,
    (C16_frame_length Ref.prims Ref.reachable Ref.target30 (some Ref.signerKey) Ref.frameBody
      Ref.send_frame.2.2).elim fun conn hh => hh.elim fun hd hh =>
        ⟨conn, hd, hh.1, hh.2.1, hh.2.2.2.1, hh.2.2.2.2.2.2.1⟩⟩

/-! ## The refill loop of `logAutoUpdate` -/

theorem forIteration_exited (c : SelectCase) (s : Autofill) :
    (forIteration c s).exited = s.exited := by
  cases c with
  | timer => rfl
  | shutdown ok => cases ok <;> rfl

theorem forIteration_closed (s : Autofill) : forIteration (.shutdown false) s = s := rfl

theorem autofillRun_running (schedule : List SelectCase) (s : Autofill)
    (h : s.exited = false) : (autofillRun schedule s).exited = false := by
  induction schedule generalizing s with
  | nil => exact h
  | cons c rest ih =>
    have hstep : autofillRun (c :: rest) s = autofillRun rest (forIteration c s) := by
      simp only [autofillRun, List.foldl_cons, h, Bool.false_eq_true, if_false]
    rw [hstep]
    exact ih _ (by rw [forIteration_exited, h])

theorem autofillRun_closed (n : Nat) (s : Autofill) (h : s.exited = false) :
    autofillRun (List.replicate n (.shutdown false)) s = s := by
  induction n with
  | zero => rfl
  | succ n ih =>
    have hstep : autofillRun (List.replicate (n + 1) (.shutdown false)) s =
        autofillRun (List.replicate n (.shutdown false)) (forIteration (.shutdown false) s) := by
      simp only [autofillRun, List.replicate_succ, List.foldl_cons, h, Bool.false_eq_true,
        if_false]
    rw [hstep, forIteration_closed, ih]

theorem autofillRun_append (a b : List SelectCase) (s : Autofill) :
    autofillRun (a ++ b) s = autofillRun b (autofillRun a s) := by
  simp only [autofillRun, List.foldl_append]

/-- C17 (fails on the code). The refill loop never leaves its `for`: whatever the `select`
does in each iteration, `exited` stays false, because the `break` taken on the closed
shutdown channel ends the `select` only. Once the channel is closed (every iteration then
receives `ok = false`), any number `n` of further iterations leaves the goroutine exactly
where it was: still in the loop, with no further call of `refillPRNG`. -/
theorem C17_refill_loop_never_exits :
    (∀ schedule : List SelectCase, (autofillRun schedule autofillStart).exited = false) ∧
    (∀ (before : List SelectCase) (n : Nat),
      autofillRun (before ++ List.replicate n (.shutdown false)) autofillStart =
        autofillRun before autofillStart) := by
  refine ⟨fun schedule => autofillRun_running schedule autofillStart rfl, ?_⟩
  intro before n
  rw [autofillRun_append]
  exact autofillRun_closed n _ (autofillRun_running before autofillStart rfl)

/-! ## Concrete instances of the unconditional claims -/

theorem C11_counter_only_advances_witness :
    (ParseAndWritePacket Ref.prims (I64.wrap 1700000000)
        (Ref.envelope Ref.packet31 (some Ref.signerKey)) (some Ref.sinkKey)
        (some Ref.signerKey) (I64.wrap 1) (I64.wrap 31) (some Ref.buffer)).1.1 =
      I64.wrap 31 :=
  (C11_counter_only_advances Ref.prims
    { Private := some Ref.sinkKey, Signer := some Ref.signerKey, Drift := I64.wrap 1 }).2.2.2.1
    (I64.wrap 1700000000) _ _ _ (I64.wrap 1) (I64.wrap 31) (some Ref.buffer) Ref.packet31
    (Ref.ParsePacket_envelope Ref.packet31) (by decide)

theorem C12_failed_send_witness :
    (Ref.target30.Send Ref.prims { Ref.unreachable with prng := Ref.emptyReader }
        (some Ref.signerKey)).err = some .EOF ∧
    (Ref.target30.Send Ref.prims { Ref.unreachable with prng := Ref.emptyReader }
        (some Ref.signerKey)).t.Counter = Ref.target30.Counter :=
  (C12_failed_send Ref.prims { Ref.unreachable with prng := Ref.emptyReader } Ref.target30
    (some Ref.signerKey)).2.2.2.1 (by decide)

theorem C14_decrypt_bounds_witness :
    Decrypt Ref.prims Ref.message (some Ref.sinkKey) none = .error .invalidBoxSize ∧
    DecryptChecked Ref.prims Ref.message (some Ref.sinkKey) none =
      some (.error .invalidBoxSize) :=
  (C14_decrypt_bounds Ref.prims).1 Ref.message Ref.sinkKey none (by decide)

theorem C15_missing_keys_witness :
    ParseAndWritePacket Ref.prims (I64.wrap 1700000000)
        (Ref.envelope Ref.packet31 (some Ref.signerKey)) none none (I64.wrap 0) (I64.wrap 0)
        none =
      ((I64.wrap 0, some .noPrivateKey), none) :=
  (C15_missing_keys Ref.prims).2.2.2.2 _ _ _ _ _ _

/-! ## One pass over a single due target -/

theorem Ref.send_reachable :
    (Ref.target30.Send Ref.prims Ref.reachable (some Ref.signerKey)).err = none :=
  (Send_success Ref.prims Ref.reachable Ref.target30 (some Ref.signerKey) _ Ref.buffer
    Ref.reachable_length (Ref.SerialiseWire_envelope _ _) rfl rfl rfl).1

theorem Ref.target30_due : Ref.target30.Next < I64.wrap 1700000000 := by decide

/-- A scan of a one-target file whose target is due and whose send returns nil: the flag
is set and the target recorded has `Next` moved. -/
theorem scanTargets_single (P : Prims) (signer : Option P.RsaPrivateKey) (now : I64)
    (env : SendEnv) (t : Target) (hlt : t.Next < now)
    (herr : (t.Send P env signer).err = none) :
    scanTargets P signer now env [t] false =
      ([passEntry P signer now env t], true, (passEntry P signer now env t).env) ∧
    (passEntry P signer now env t).t.Next = now + delaySeconds := by
  have hu := (passEntry_updated P signer now env t).mpr ⟨hlt, herr⟩
  refine ⟨?_, ?_⟩
  · rw [scanTargets_cons, hu]
    rfl
  · simp only [passEntry, hlt, if_true, herr]

theorem Ref.scan_target30 :
    scanTargets Ref.prims (some Ref.signerKey) (I64.wrap 1700000000) Ref.reachable
        [Ref.target30] false =
      ([passEntry Ref.prims (some Ref.signerKey) (I64.wrap 1700000000) Ref.reachable
          Ref.target30], true,
        (passEntry Ref.prims (some Ref.signerKey) (I64.wrap 1700000000) Ref.reachable
          Ref.target30).env) ∧
    (passEntry Ref.prims (some Ref.signerKey) (I64.wrap 1700000000) Ref.reachable
        Ref.target30).t.Next = I64.wrap 1700021600 := by
  have h := scanTargets_single Ref.prims (some Ref.signerKey) (I64.wrap 1700000000)
    Ref.reachable Ref.target30 Ref.target30_due Ref.send_reachable
  refine ⟨h.1, ?_⟩
  rw [h.2]
  decide

theorem scanPass_single (P : Prims) (signer : Option P.RsaPrivateKey) (now : I64)
    (env : SendEnv) (fs : FileSys) (t : Target) (hlt : t.Next < now)
    (herr : (t.Send P env signer).err = none) :
    (scanPass P signer now env fs [t] false).stored =
        some [(passEntry P signer now env t).t] ∧
    (scanPass P signer now env fs [t] false).file =
        (Store fs [t] [(passEntry P signer now env t).t]).2 := by
  have h := (scanTargets_single P signer now env t hlt herr).1
  unfold scanPass
  rw [h]
  exact ⟨rfl, rfl⟩

/-- C13 (as stated, fails). A pass at time 1700000000 over a file with the one target
`target30` (due since 0, sink reachable) on a file system where the target file cannot be
written: the send succeeds, `target.Store` is called with the target moved to
`Next = 1700021600`, the write fails, and the file still holds the old target with
`Next = 0`: a send succeeded and the file was not rewritten. -/
theorem C13_counterexample :
    Ref.target30.Next < I64.wrap 1700000000 ∧
    (Ref.target30.Send Ref.prims Ref.reachable (some Ref.signerKey)).err = none ∧
    (scanPass Ref.prims (some Ref.signerKey) (I64.wrap 1700000000) Ref.reachable
      Ref.readOnly [Ref.target30] false).file = [Ref.target30] ∧
    Ref.target30.Next = I64.wrap 0 ∧
    ∃ t, (scanPass Ref.prims (some Ref.signerKey) (I64.wrap 1700000000) Ref.reachable
      Ref.readOnly [Ref.target30] false).stored = some [t] ∧ t.Next = I64.wrap 1700021600 := by
  have hp := scanPass_single Ref.prims (some Ref.signerKey) (I64.wrap 1700000000)
    Ref.reachable Ref.readOnly Ref.target30 Ref.target30_due Ref.send_reachable
  refine ⟨Ref.target30_due, Ref.send_reachable, ?_, rfl, _, hp.1, Ref.scan_target30.2⟩
  rw [hp.2]
  rfl

theorem C13_scheduler_rule_witness :
    (scanPass Ref.prims (some Ref.signerKey) (I64.wrap 1700000000) Ref.reachable
      Ref.writable [Ref.target30] false).stored.isSome = true :=
  (C13_scheduler_rule Ref.prims (some Ref.signerKey) (I64.wrap 1700000000) Ref.reachable
    Ref.writable [Ref.target30]).2.1.mpr
    ⟨[], Ref.target30, [], rfl, Ref.target30_due, Ref.send_reachable⟩

end Entropyshare
